import Mathlib

/-!
Verification of the StoryBoard comic-generator core (src/index.tsx).

The file embeds, as executable Lean definitions, the parts of the source
that the specification's claims are about:

* the streaming script parser loop of `generateScripts` (lines 194-219),
  including a model of the JavaScript `JSON.parse` primitive as a
  recursive-descent JSON parser over `List Char` (string contents are kept
  as their raw character lexemes, since no claim depends on decoded
  escapes, and numbers are kept as their lexemes, since no claim computes
  with numeric values);
* the bulk image pipeline of `handleStartImageGeneration` (lines 128-177)
  and the single-panel regeneration `handleRegenerateImage` (lines
  289-313), with the external image service modelled as per-attempt
  `Except` oracles;
* the single-panel script revision `handleRegenerateSingleScript`
  (lines 264-287) together with the `ScriptEditModal.handleRegenerate`
  wrapper (lines 468-473);
* the `startOver` handler (lines 315-320) together with the
  `SlideshowModal` narration effect (lines 501-525) that re-runs when its
  `scenes` dependency changes;
* the `SlideshowModal` navigation state machine (lines 481-499, 527-547).

Theorems for the spec claims follow the definitions.
-/

/-! ## Characters and character classes

Brace characters are defined by code point. -/

def lbrace : Char := Char.ofNat 123

def rbrace : Char := Char.ofNat 125

/-- JSON whitespace characters (the set `JSON.parse` skips). -/
def isWsChar (c : Char) : Bool :=
  c = ' ' || c = '\t' || c = '\n' || c = '\r'

def isDigitChar (c : Char) : Bool := '0' ≤ c && c ≤ '9'

def isDigit19 (c : Char) : Bool := '1' ≤ c && c ≤ '9'

def isHexChar (c : Char) : Bool :=
  isDigitChar c || ('a' ≤ c && c ≤ 'f') || ('A' ≤ c && c ≤ 'F')

/-- Single-character escape heads accepted after a backslash in a JSON string. -/
def isEscHead (c : Char) : Bool :=
  c = '"' || c = '\\' || c = '/' || c = 'b' || c = 'f' || c = 'n' || c = 'r' || c = 't'

/-- Characters a JSON number lexeme may contain. -/
def isNumChar (c : Char) : Bool :=
  isDigitChar c || c = '-' || c = '+' || c = '.' || c = 'e' || c = 'E'

/-- Skip leading JSON whitespace. -/
def skipWs : List Char → List Char
  | [] => []
  | c :: cs => if isWsChar c then skipWs cs else c :: cs

/-! ## JSON values and the model of `JSON.parse` -/

/-- JSON values.  String contents and number lexemes are raw character
lists. -/
inductive JVal where
  | null : JVal
  | bool (b : Bool) : JVal
  | num (lexeme : List Char) : JVal
  | str (s : List Char) : JVal
  | arr (es : List JVal) : JVal
  | obj (members : List (List Char × JVal)) : JVal

/-- Parse the body of a JSON string literal (the opening quote has already
been consumed).  Returns the raw body characters and the rest of the
input after the closing quote.  Escape sequences are validated the way
`JSON.parse` validates them; raw control characters are rejected. -/
def parseStringBody : List Char → Option (List Char × List Char)
  | [] => none
  | c :: cs =>
    if c = '"' then some ([], cs)
    else if c = '\\' then
      match cs with
      | [] => none
      | d :: ds =>
        if d = 'u' then
          match ds with
          | h1 :: h2 :: h3 :: h4 :: rest =>
            if isHexChar h1 && isHexChar h2 && isHexChar h3 && isHexChar h4 then
              match parseStringBody rest with
              | some (s, r) => some (c :: d :: h1 :: h2 :: h3 :: h4 :: s, r)
              | none => none
            else none
          | _ => none
        else if isEscHead d then
          match parseStringBody ds with
          | some (s, r) => some (c :: d :: s, r)
          | none => none
        else none
    else if c.toNat < 32 then none
    else
      match parseStringBody cs with
      | some (s, r) => some (c :: s, r)
      | none => none

/-- Integer part of a JSON number: `0`, or a nonzero digit followed by
digits. -/
def numIntPart : List Char → Option (List Char × List Char)
  | [] => none
  | c :: cs =>
    if c = '0' then some ([c], cs)
    else if isDigit19 c then
      let p := cs.span isDigitChar
      some (c :: p.1, p.2)
    else none

/-- Optional fraction part of a JSON number: `.` followed by at least one
digit, or nothing. -/
def numFracPart (l : List Char) : Option (List Char × List Char) :=
  match l with
  | [] => some ([], [])
  | c :: cs =>
    if c = '.' then
      let p := cs.span isDigitChar
      if p.1.isEmpty then none else some (c :: p.1, p.2)
    else some ([], l)

/-- Digits of an exponent, after the `e`/`E` marker `c` and an optional
sign `sgn`: at least one digit is required. -/
def numExpDigits (c : Char) (sgn rest : List Char) : Option (List Char × List Char) :=
  if (rest.takeWhile isDigitChar).isEmpty then none
  else some (c :: (sgn ++ rest.takeWhile isDigitChar), rest.dropWhile isDigitChar)

/-- Optional exponent part of a JSON number. -/
def numExpPart (l : List Char) : Option (List Char × List Char) :=
  match l with
  | [] => some ([], [])
  | c :: cs =>
    if c = 'e' || c = 'E' then
      match cs with
      | d :: ds => if d = '+' || d = '-' then numExpDigits c [d] ds else numExpDigits c [] cs
      | [] => none
    else some ([], l)

/-- Integer, fraction and exponent parts of a number after an optional
leading sign `sgn`. -/
def parseNumTail (sgn l1 : List Char) : Option (List Char × List Char) :=
  match numIntPart l1 with
  | none => none
  | some (ip, l2) =>
    match numFracPart l2 with
    | none => none
    | some (fp, l3) =>
      match numExpPart l3 with
      | none => none
      | some (ep, r) => some (sgn ++ ip ++ fp ++ ep, r)

/-- Parse a JSON number lexeme (grammar of `JSON.parse`). -/
def parseNumber (l : List Char) : Option (List Char × List Char) :=
  match l with
  | c :: cs => if c = '-' then parseNumTail ['-'] cs else parseNumTail [] l
  | [] => none

/-- Match an exact character sequence. -/
def expectChars : List Char → List Char → Option (List Char)
  | [], l => some l
  | p :: ps, c :: cs => if c = p then expectChars ps cs else none
  | _ :: _, [] => none

mutual

/-- Parse one JSON value.  The input must start at the value (no leading
whitespace).  `fuel` bounds recursion depth; the top-level entry point
supplies enough fuel for any input. -/
def parseValue : Nat → List Char → Option (JVal × List Char)
  | 0, _ => none
  | Nat.succ fuel, l =>
    match l with
    | [] => none
    | c :: cs =>
      if c = '"' then
        match parseStringBody cs with
        | some (s, r) => some (.str s, r)
        | none => none
      else if c = '[' then
        match parseArrayRest fuel cs with
        | some (es, r) => some (.arr es, r)
        | none => none
      else if c = lbrace then
        match parseObjRest fuel cs with
        | some (ms, r) => some (.obj ms, r)
        | none => none
      else if c = 't' then
        match expectChars ['r', 'u', 'e'] cs with
        | some r => some (.bool true, r)
        | none => none
      else if c = 'f' then
        match expectChars ['a', 'l', 's', 'e'] cs with
        | some r => some (.bool false, r)
        | none => none
      else if c = 'n' then
        match expectChars ['u', 'l', 'l'] cs with
        | some r => some (.null, r)
        | none => none
      else if c = '-' || isDigitChar c then
        match parseNumber (c :: cs) with
        | some (x, r) => some (.num x, r)
        | none => none
      else none

/-- After an opening `[`: whitespace, then either an immediate `]` (empty
array) or a nonempty element list. -/
def parseArrayRest : Nat → List Char → Option (List JVal × List Char)
  | 0, _ => none
  | Nat.succ fuel, cs =>
    match skipWs cs with
    | [] => none
    | c :: r => if c = ']' then some ([], r) else parseElemsA fuel (c :: r)

/-- Nonempty comma-separated element list of an array, consuming the
closing `]`. -/
def parseElemsA : Nat → List Char → Option (List JVal × List Char)
  | 0, _ => none
  | Nat.succ fuel, l =>
    match parseValue fuel l with
    | none => none
    | some (v, r1) =>
      match skipWs r1 with
      | [] => none
      | c :: r2 =>
        if c = ',' then
          match parseElemsA fuel (skipWs r2) with
          | some (vs, r) => some (v :: vs, r)
          | none => none
        else if c = ']' then some ([v], r2)
        else none

/-- After an opening brace: whitespace, then either an immediate closing
brace (empty object) or a nonempty member list. -/
def parseObjRest : Nat → List Char → Option (List (List Char × JVal) × List Char)
  | 0, _ => none
  | Nat.succ fuel, cs =>
    match skipWs cs with
    | [] => none
    | c :: r => if c = rbrace then some ([], r) else parseMembers fuel (c :: r)

/-- Nonempty comma-separated member list of an object, consuming the
closing brace. -/
def parseMembers : Nat → List Char → Option (List (List Char × JVal) × List Char)
  | 0, _ => none
  | Nat.succ fuel, l =>
    match l with
    | [] => none
    | c :: cs =>
      if c = '"' then
        match parseStringBody cs with
        | none => none
        | some (k, r1) =>
          match skipWs r1 with
          | [] => none
          | d :: r2 =>
            if d = ':' then
              match parseValue fuel (skipWs r2) with
              | none => none
              | some (v, r3) =>
                match skipWs r3 with
                | [] => none
                | e :: r4 =>
                  if e = ',' then
                    match parseMembers fuel (skipWs r4) with
                    | some (ms, r) => some ((k, v) :: ms, r)
                    | none => none
                  else if e = rbrace then some ([(k, v)], r4)
                  else none
            else none
      else none

end

/-- Model of `JSON.parse`: parse one JSON document with surrounding
whitespace; the whole input must be consumed.  Returns `none` where
`JSON.parse` throws. -/
def jparse (l : List Char) : Option JVal :=
  match parseValue (2 * l.length + 4) (skipWs l) with
  | some (v, r) => if (skipWs r).isEmpty then some v else none
  | none => none

/-! ## Structural scanner

A flat character scanner used in proofs about the streaming parser: it
tracks whether the position is inside a string literal (with escape
state), the bracket/brace nesting depth, the number of commas seen at
nesting depth 1 outside strings (i.e. separators of the outer array's
elements), and whether any element content has been seen at depth 1. -/

structure ScanSt where
  inStr : Bool
  esc : Bool
  depth : Nat
  commas : Nat
  sawElem : Bool
deriving DecidableEq, Repr

def scanStep (st : ScanSt) (c : Char) : ScanSt :=
  if st.inStr then
    if st.esc then { st with esc := false }
    else if c = '\\' then { st with esc := true }
    else if c = '"' then { st with inStr := false }
    else st
  else
    if c = '"' then
      { st with inStr := true, esc := false, sawElem := st.sawElem || decide (st.depth = 1) }
    else if c = '[' || c = lbrace then
      { st with depth := st.depth + 1, sawElem := st.sawElem || decide (st.depth = 1) }
    else if c = ']' || c = rbrace then { st with depth := st.depth - 1 }
    else if c = ',' then
      { st with commas := if st.depth = 1 then st.commas + 1 else st.commas }
    else if isWsChar c then st
    else { st with sawElem := st.sawElem || decide (st.depth = 1) }

def scanFrom (st : ScanSt) (l : List Char) : ScanSt := l.foldl scanStep st

def scanInit : ScanSt := ⟨false, false, 0, 0, false⟩

def scanOf (l : List Char) : ScanSt := scanFrom scanInit l

/-- Number of complete top-level array elements witnessed by the scanner
state: one more than the top-level separator count once any element
content has been seen. -/
def emitBound (st : ScanSt) : Nat := if st.sawElem then st.commas + 1 else 0

/-! ## Data model (TS interface `Scene`, lines 19-26)

`imageUrl` in the source is `string | null` where the string is either a
data/placeholder URL or one of the sentinels `'RETRYING'` / `'FAILED'`;
it is modelled as `Option ImgVal` with the sentinels as constructors
(`none` is `null`, i.e. pending/loading). -/

inductive ImgVal where
  | url (u : List Char) : ImgVal
  | retrying : ImgVal
  | failed : ImgVal
deriving DecidableEq, Repr

/-- A panel as emitted by the streaming script parser:
`{...s, scene: i+1, imageUrl: null}` (line 202/212) keeps the parsed JSON
element and overrides its 1-based position tag and image status. -/
structure StreamPanel where
  payload : JVal
  scene : Nat
  imageUrl : Option ImgVal

/-- `parsed.map((s, i) => ({...s, scene: i+1, imageUrl: null}))`. -/
def tagFrom : Nat → List JVal → List StreamPanel
  | _, [] => []
  | i, v :: vs => ⟨v, i + 1, none⟩ :: tagFrom (i + 1) vs

def tagPanels (es : List JVal) : List StreamPanel := tagFrom 0 es

/-! ## Streaming script parser loop (`generateScripts`, lines 194-219) -/

/-- `buffer.endsWith(',')`. -/
def endsWithComma (b : List Char) : Bool := b.getLast? = some ','

/-- The repair candidate built on line 208:
`buffer + (buffer.endsWith(',') ? ']' : ']')` — note that the source's
conditional appends `']'` in both branches. -/
def repairCandidate (b : List Char) : List Char :=
  b ++ (if endsWithComma b then [']'] else [']'])

/-- Repair candidate as the spec words it (§4.1): strip any trailing
comma from the buffer, then append a closing bracket. -/
def specRepairCandidate (b : List Char) : List Char :=
  (if endsWithComma b then b.dropLast else b) ++ [']']

/-- State of the streaming loop: the accumulated text buffer,
`lastParsedLength`, and the panel list most recently passed to
`setScenes` (the emitted list). -/
structure ParserRun where
  buffer : List Char
  lastParsedLength : Nat
  scenes : List StreamPanel

def initRun : ParserRun := ⟨[], 0, []⟩

/-- One iteration of the `for await` loop (lines 196-218): append the
chunk, try a strict parse (emit unconditionally if it yields an array),
otherwise try the repair candidate and emit only if it yields an array
longer than `lastParsedLength`. -/
def feed (st : ParserRun) (chunk : List Char) : ParserRun :=
  match jparse (st.buffer ++ chunk) with
  | some (JVal.arr es) => ⟨st.buffer ++ chunk, es.length, tagPanels es⟩
  | some _ => ⟨st.buffer ++ chunk, st.lastParsedLength, st.scenes⟩
  | none =>
    match jparse (repairCandidate (st.buffer ++ chunk)) with
    | some (JVal.arr es) =>
      if st.lastParsedLength < es.length then
        ⟨st.buffer ++ chunk, es.length, tagPanels es⟩
      else ⟨st.buffer ++ chunk, st.lastParsedLength, st.scenes⟩
    | _ => ⟨st.buffer ++ chunk, st.lastParsedLength, st.scenes⟩

/-- Run the loop over a whole fragment sequence. -/
def runStream (chunks : List (List Char)) : ParserRun := chunks.foldl feed initRun

/-! ## Panel image pipeline (`handleStartImageGeneration`, lines 128-177,
and `handleRegenerateImage`, lines 289-313)

The external image service (`generateSceneImage`) is modelled as one
`Except` oracle per attempt: `.ok u` is a returned image URL, `.error e`
is a thrown error (including the malformed-response throw on line 255).
Errors are opaque character strings. -/

abbrev GenErr := List Char

/-- A finalized panel as used by the pipeline (TS `Scene`). -/
structure Scene where
  scene : Nat
  script : List Char
  image_prompt : List Char
  panel_text : List Char
  imageUrl : Option ImgVal
deriving DecidableEq, Repr

/-- The inputs of one `generateSceneImage(scene, charImgB64, genre)` call
(lines 150, 157, 297, 304). -/
structure GenInput where
  scene : Scene
  charImg : List Char
  genre : List Char
deriving DecidableEq, Repr

/-- Observable steps of a per-panel generation attempt sequence:
service calls, `setScenes` status updates keyed by panel index,
`console.warn`, the fixed backoff `setTimeout`, and `console.error`. -/
inductive PanelEvent where
  | attempt (inp : GenInput) : PanelEvent
  | setStatus (i : Nat) (v : Option ImgVal) : PanelEvent
  | warn : PanelEvent
  | wait (ms : Nat) : PanelEvent
  | logError (e : GenErr) : PanelEvent
deriving DecidableEq, Repr

/-- The two-attempt protocol of one panel (lines 148-164 and 296-309):
first attempt; on success set the URL; on failure warn, set `'RETRYING'`,
wait 500 ms, retry with identical inputs; on second failure log the error
and set `'FAILED'`.  Returns the ordered event trace and the terminal
image value.  The per-panel `try`/`catch` makes this total: no error
escapes to the joint await. -/
def runPanel (i : Nat) (inp : GenInput) (r1 r2 : Except GenErr (List Char)) :
    List PanelEvent × ImgVal :=
  match r1 with
  | .ok u => ([.attempt inp, .setStatus i (some (.url u))], .url u)
  | .error _ =>
    match r2 with
    | .ok u =>
      ([.attempt inp, .warn, .setStatus i (some .retrying), .wait 500,
        .attempt inp, .setStatus i (some (.url u))], .url u)
    | .error e2 =>
      ([.attempt inp, .warn, .setStatus i (some .retrying), .wait 500,
        .attempt inp, .logError e2, .setStatus i (some .failed)], .failed)

/-- Generic indexed map used by the `scenes.map((s, i) => ...)` updates. -/
def mapIdxFrom (f : Nat → Scene → Scene) : Nat → List Scene → List Scene
  | _, [] => []
  | i, s :: ss => f i s :: mapIdxFrom f (i + 1) ss

/-- `prev.map((s, i) => i === index ? {...s, imageUrl: v} : s)`
(lines 151, 154, 158, 161, 294, 298, 301, 305, 308): the keyed update
that touches only panel `index`. -/
def setImg (scenes : List Scene) (index : Nat) (v : Option ImgVal) : List Scene :=
  mapIdxFrom (fun i s => if i = index then { s with imageUrl := v } else s) 0 scenes

/-- The settled scenes after the jointly awaited per-panel updates
(line 166).  Each panel's updates are keyed to its own index, so the
settled value of panel `i` is the terminal value of panel `i`'s own
trace, independent of the interleaving of the concurrent updates. -/
def bulkFinal (scenes : List Scene) (img genre : List Char)
    (r1 r2 : Nat → Except GenErr (List Char)) : List Scene :=
  mapIdxFrom
    (fun i s => { s with imageUrl := some (runPanel i ⟨s, img, genre⟩ (r1 i) (r2 i)).2 })
    0 scenes

/-- `handleStartImageGeneration` (lines 128-177).  `isDevMode = true`
takes the placeholder bypass (lines 133-140); otherwise the character
reference image request runs first (its failure aborts the whole
operation via the outer catch, lines 171-173), then all panels run
concurrently and the result settles with every panel terminal. -/
def handleStartImageGeneration (isDevMode : Bool) (placeholder : Nat → List Char)
    (scenes : List Scene) (charResult : Except GenErr (List Char)) (genre : List Char)
    (r1 r2 : Nat → Except GenErr (List Char)) : Except GenErr (List Scene) :=
  if isDevMode then
    .ok (mapIdxFrom (fun i s => { s with imageUrl := some (.url (placeholder i)) }) 0 scenes)
  else
    match charResult with
    | .error e => .error e
    | .ok img => .ok (bulkFinal scenes img genre r1 r2)

/-- Default scene used to model the unchecked `scenes[sceneIndex]` access
on line 293. -/
def defaultScene : Scene := ⟨0, [], [], [], none⟩

/-- `handleRegenerateImage` (lines 289-313).  The guard on line 290
returns immediately (no events, no state change) when there is no
character reference image or a regeneration is already in flight;
otherwise the panel is first reset to `null` (Loading, line 294) and the
two-attempt protocol runs with the panel's pre-reset content. -/
def handleRegenerateImage (charImg : Option (List Char)) (busy : Bool)
    (scenes : List Scene) (sceneIndex : Nat) (genre : List Char)
    (r1 r2 : Except GenErr (List Char)) : List PanelEvent × List Scene :=
  match charImg with
  | none => ([], scenes)
  | some img =>
    if busy then ([], scenes)
    else
      let sceneToRegen := scenes.getD sceneIndex defaultScene
      let run := runPanel sceneIndex ⟨sceneToRegen, img, genre⟩ r1 r2
      (PanelEvent.setStatus sceneIndex none :: run.1,
       setImg scenes sceneIndex (some run.2))

/-! ## Script revision service (`handleRegenerateSingleScript`,
lines 264-287, with the `ScriptEditModal.handleRegenerate` wrapper,
lines 468-473)

The revision service response is constrained by `responseSchema`
(line 273) to an object with exactly the keys `script`, `image_prompt`
and `panel_text`; a service error or an unparsable response is the
`.error` case (the thrown error that the modal wrapper catches and
surfaces via `alert`, without touching session state). -/

structure ScriptTriple where
  script : List Char
  image_prompt : List Char
  panel_text : List Char
deriving DecidableEq, Repr

/-- `{ ...s, ...newScriptData }` (line 281) for a schema-shaped response:
replaces the three script fields, keeps `scene` and `imageUrl`. -/
def applyTriple (s : Scene) (d : ScriptTriple) : Scene :=
  { s with script := d.script, image_prompt := d.image_prompt, panel_text := d.panel_text }

/-- Combined `handleRegenerateSingleScript` + modal wrapper: on success
the matching panel (keyed by `s.scene === sceneToRegen.scene`, line 280)
is replaced and no error is surfaced; on failure the scenes are untouched
and the error goes to the editor context only. -/
def handleRegenerateSingleScript (scenes : List Scene) (sceneToRegen : Scene)
    (resp : Except GenErr ScriptTriple) : List Scene × Option GenErr :=
  match resp with
  | .error e => (scenes, some e)
  | .ok d =>
    (scenes.map fun s => if s.scene = sceneToRegen.scene then applyTriple s d else s, none)

/-! ## Start over and the narration device (`startOver`, lines 315-320;
`SlideshowModal` narration effect, lines 501-525) -/

inductive NarrCmd where
  | cancel : NarrCmd
  | speak (text : List Char) (voice : Option (List Char)) : NarrCmd
deriving DecidableEq, Repr

/-- The pieces of `App`/`SlideshowModal` state the narration effect and
`startOver` read or write.  Voices are identified by their URI. -/
structure AppState where
  isGenerated : Bool
  scenes : List Scene
  storyIdea : List Char
  isReviewingScript : Bool
  isSlideshowOpen : Bool
  currentIndex : Nat
  isCompleted : Bool
  selectedVoiceURI : Option (List Char)
  allVoices : List (List Char)
deriving DecidableEq, Repr

/-- `startOver` (lines 315-320): discards the session.  It does not
itself call the narration device. -/
def startOver (st : AppState) : AppState :=
  { st with isGenerated := false, scenes := [], storyIdea := [], isReviewingScript := false }

def completedUtterText : List Char :=
  ("The slideshow is completed. Do you want to restart?").data

/-- The utterance the narration effect builds (lines 505-514) when the
slideshow is open. -/
def slideshowUtterance (st : AppState) : Option (List Char) :=
  if st.isCompleted then some completedUtterText
  else
    match st.scenes.get? st.currentIndex with
    | some sc => if sc.panel_text.isEmpty then none else some sc.panel_text
    | none => none

/-- The body of the `SlideshowModal` narration effect (lines 501-525):
cancel first, then speak the utterance (if any) with the selected voice
when the modal is open; cancel when it is closed. -/
def narrationEffect (st : AppState) : List NarrCmd :=
  if st.isSlideshowOpen then
    let voice := st.allVoices.find? (fun v => st.selectedVoiceURI = some v)
    NarrCmd.cancel ::
      (match slideshowUtterance st with
       | some u => [NarrCmd.speak u voice]
       | none => [])
  else [NarrCmd.cancel]

/-- The dependency array of the narration effect (line 525). -/
structure NarrDeps where
  isSlideshowOpen : Bool
  currentIndex : Nat
  scenes : List Scene
  selectedVoiceURI : Option (List Char)
  allVoices : List (List Char)
  isCompleted : Bool
deriving DecidableEq, Repr

def narrationDeps (st : AppState) : NarrDeps :=
  ⟨st.isSlideshowOpen, st.currentIndex, st.scenes, st.selectedVoiceURI, st.allVoices,
   st.isCompleted⟩

/-- `startOver` followed by the render cycle it triggers: the
`SlideshowModal` is always mounted (line 413), so React re-runs its
narration effect whenever one of the effect's dependencies changed. -/
def startOverStep (st : AppState) : AppState × List NarrCmd :=
  (startOver st,
   if narrationDeps (startOver st) = narrationDeps st then []
   else narrationEffect (startOver st))

/-! ## Slideshow navigation (`SlideshowModal`, lines 481-499, 527-547) -/

/-- The slideshow's local state. -/
structure SlideNav where
  currentIndex : Nat
  isCompleted : Bool
deriving DecidableEq, Repr

/-- `goToPrevious` (lines 481-483). -/
def goToPrevious (st : SlideNav) : SlideNav :=
  { st with currentIndex := if 0 < st.currentIndex then st.currentIndex - 1 else 0 }

/-- `goToNext` (lines 485-494): advance, or set the completed flag and
stay on the last index. -/
def goToNext (len : Nat) (st : SlideNav) : SlideNav :=
  if st.currentIndex < len - 1 then { st with currentIndex := st.currentIndex + 1 }
  else { st with isCompleted := true }

/-- The full navigation state: the component's local state, the `isOpen`
prop, and the dependency values `(isOpen, isCompleted)` recorded by the
last run of the keydown effect (dependency array, line 547).  The key
listener attached by that run captured `isCompleted` in its closure, so
the guard on line 533 reads `kdCompleted`; a listener is attached only if
that run saw the modal open (lines 538-541), so keys reach the handler
only when `kdOpen` is true. -/
structure SlideSt where
  nav : SlideNav
  isOpen : Bool
  kdOpen : Bool
  kdCompleted : Bool
deriving DecidableEq, Repr

/-- One run of the keydown effect (lines 527-547): the run records the
current dependency values, and if the modal is open the body resets the
index to 0 and clears the completed flag (lines 538-540). -/
def kdEffectRun (st : SlideSt) : SlideSt :=
  if st.isOpen then ⟨⟨0, false⟩, st.isOpen, st.isOpen, st.nav.isCompleted⟩
  else ⟨st.nav, st.isOpen, st.isOpen, st.nav.isCompleted⟩

/-- Whether the keydown effect's dependency array (line 547) matches the
values recorded at its last run, i.e. whether React would re-run it. -/
def kdDepsMatch (st : SlideSt) : Bool :=
  (st.kdOpen == st.isOpen) && (st.kdCompleted == st.nav.isCompleted)

/-- React re-runs the keydown effect whenever its dependency array
changed since the last run, until the dependencies are stable.  For this
effect two runs always reach the fixed point (the body forces the index
to 0 and the completed flag to false whenever the modal is open), so the
iteration is unrolled to two runs; `reconcile_settled` below proves the
result really is the fixed point of the re-run rule. -/
def reconcile (st : SlideSt) : SlideSt :=
  if kdDepsMatch st then st
  else if kdDepsMatch (kdEffectRun st) then kdEffectRun st
  else kdEffectRun (kdEffectRun st)

/-- An ArrowLeft key press (lines 528-535): it reaches a handler only if
a listener is attached (the last effect run saw the modal open), and the
handler returns early if the `isCompleted` captured at that run was true
(line 533); otherwise `goToPrevious`. -/
def keyLeft (st : SlideSt) : SlideSt :=
  if st.kdOpen = false then st
  else if st.kdCompleted = true then st
  else ⟨goToPrevious st.nav, st.isOpen, st.kdOpen, st.kdCompleted⟩

/-- An ArrowRight key press (lines 528-537): as `keyLeft`, with
`goToNext`. -/
def keyRight (len : Nat) (st : SlideSt) : SlideSt :=
  if st.kdOpen = false then st
  else if st.kdCompleted = true then st
  else ⟨goToNext len st.nav, st.isOpen, st.kdOpen, st.kdCompleted⟩

/-- `handleRestart` (lines 496-499): clear the completed flag and return
to index 0. -/
def handleRestart (st : SlideSt) : SlideSt :=
  ⟨⟨0, false⟩, st.isOpen, st.kdOpen, st.kdCompleted⟩

/-- The parent flips the `isOpen` prop to true. -/
def openModal (st : SlideSt) : SlideSt :=
  ⟨st.nav, true, st.kdOpen, st.kdCompleted⟩

/-- Navigation operations: arrow keys, the restart button and opening
the modal. -/
inductive NavOp where
  | prevKey : NavOp
  | nextKey : NavOp
  | restartClick : NavOp
  | openShow : NavOp
deriving DecidableEq, Repr

/-- One user event followed by React's effect reconciliation: the state
the next event observes. -/
def navStep (len : Nat) (st : SlideSt) (op : NavOp) : SlideSt :=
  match op with
  | .prevKey => reconcile (keyLeft st)
  | .nextKey => reconcile (keyRight len st)
  | .restartClick => reconcile (handleRestart st)
  | .openShow => reconcile (openModal st)

def navRun (len : Nat) (ops : List NavOp) (st : SlideSt) : SlideSt :=
  ops.foldl (navStep len) st

/-- Invariant of states the user can observe between events: the index is
in bounds, the effect's recorded dependencies match the current values
(no re-run pending), and the completed flag is false — the keydown
effect clears it the moment it is set, since `isCompleted` is in its
dependency array (line 547) and its body resets the state whenever the
modal is open (lines 538-540). -/
def NavInv (len : Nat) (st : SlideSt) : Prop :=
  st.nav.currentIndex ≤ len - 1 ∧ st.nav.isCompleted = false ∧
  st.kdOpen = st.isOpen ∧ st.kdCompleted = st.nav.isCompleted

/-! ## Proof infrastructure for the streaming parser

`isPlainChar` identifies characters that are structurally inert for the
scanner outside strings; the `...Post` functions describe the scanner
state after a parsed production; the `...Stmt` predicates are the
fuel-indexed soundness statements proved by mutual induction; `RunInv` is
the loop invariant of the streaming parser. -/

def isPlainChar (c : Char) : Bool :=
  !(c == '"') && !(c == '[') && !(c == lbrace) && !(c == ']') && !(c == rbrace) &&
    !(c == ',') && !(isWsChar c)

/-- Scanner state after a complete JSON value parsed at depth ≥ 1. -/
def vPost (st : ScanSt) : ScanSt :=
  ⟨false, false, st.depth, st.commas, st.sawElem || decide (st.depth = 1)⟩

/-- Scanner state after the remainder of an array (elements and the
closing bracket) entered at depth ≥ 1. -/
def arPost (es : List JVal) (st : ScanSt) : ScanSt :=
  ⟨false, false, st.depth - 1,
   st.commas + (if st.depth = 1 then es.length - 1 else 0),
   st.sawElem || (decide (st.depth = 1) && !es.isEmpty)⟩

/-- Scanner state after the remainder of an object entered at depth ≥ 2. -/
def mPost (st : ScanSt) : ScanSt :=
  ⟨false, false, st.depth - 1, st.commas, st.sawElem⟩

/-- Scanner states at a position outside any string literal. -/
def GoodSt (st : ScanSt) : Prop := st.inStr = false ∧ st.esc = false

def VStmt (fuel : Nat) : Prop :=
  ∀ l v r, parseValue fuel l = some (v, r) →
    ∃ c, l = c ++ r ∧ ∀ st : ScanSt, GoodSt st → 1 ≤ st.depth → scanFrom st c = vPost st

def ARStmt (fuel : Nat) : Prop :=
  ∀ l es r, parseArrayRest fuel l = some (es, r) →
    ∃ c, l = c ++ r ∧ ∀ st : ScanSt, GoodSt st → 1 ≤ st.depth → scanFrom st c = arPost es st

def EStmt (fuel : Nat) : Prop :=
  ∀ l es r, parseElemsA fuel l = some (es, r) →
    es ≠ [] ∧ ∃ c, l = c ++ r ∧
      ∀ st : ScanSt, GoodSt st → 1 ≤ st.depth → scanFrom st c = arPost es st

def ORStmt (fuel : Nat) : Prop :=
  ∀ l ms r, parseObjRest fuel l = some (ms, r) →
    ∃ c, l = c ++ r ∧ ∀ st : ScanSt, GoodSt st → 2 ≤ st.depth → scanFrom st c = mPost st

def MStmt (fuel : Nat) : Prop :=
  ∀ l ms r, parseMembers fuel l = some (ms, r) →
    ∃ c, l = c ++ r ∧ ∀ st : ScanSt, GoodSt st → 2 ≤ st.depth → scanFrom st c = mPost st

/-- Invariant of the streaming loop: the emitted list's length equals
`lastParsedLength`, which is bounded by the scanner's element count for
the current buffer. -/
def RunInv (st : ParserRun) : Prop :=
  st.scenes.length = st.lastParsedLength ∧
    st.lastParsedLength ≤ emitBound (scanOf st.buffer)

/-! ## Basic lemmas -/

theorem tagFrom_length (es : List JVal) : ∀ i, (tagFrom i es).length = es.length := by
  induction es with
  | nil => intro i; rfl
  | cons v vs ih => intro i; simp [tagFrom, ih]

theorem tagPanels_length (es : List JVal) : (tagPanels es).length = es.length :=
  tagFrom_length es 0

theorem scanFrom_nil (st : ScanSt) : scanFrom st [] = st := rfl

theorem scanFrom_cons (st : ScanSt) (c : Char) (l : List Char) :
    scanFrom st (c :: l) = scanFrom (scanStep st c) l := rfl

theorem scanFrom_append (st : ScanSt) (a b : List Char) :
    scanFrom st (a ++ b) = scanFrom (scanFrom st a) b :=
  List.foldl_append _ _ _ _

theorem scanFrom_single (st : ScanSt) (c : Char) : scanFrom st [c] = scanStep st c := rfl

/-! ### `scanStep` on specific characters -/

theorem scanStep_inStr_esc (st : ScanSt) (c : Char) (h1 : st.inStr = true)
    (h2 : st.esc = true) : scanStep st c = { st with esc := false } := by
  simp [scanStep, h1, h2]

theorem scanStep_inStr_bs (st : ScanSt) (h1 : st.inStr = true) (h2 : st.esc = false) :
    scanStep st '\\' = { st with esc := true } := by
  simp [scanStep, h1, h2]

theorem scanStep_inStr_quote (st : ScanSt) (h1 : st.inStr = true) (h2 : st.esc = false) :
    scanStep st '"' = { st with inStr := false } := by
  simp [scanStep, h1, h2]

theorem scanStep_inStr_other (st : ScanSt) (c : Char) (h1 : st.inStr = true)
    (h2 : st.esc = false) (h3 : c ≠ '\\') (h4 : c ≠ '"') : scanStep st c = st := by
  simp [scanStep, h1, h2, h3, h4]

theorem scanStep_quoteOpen (st : ScanSt) (h : st.inStr = false) :
    scanStep st '"' =
      { st with inStr := true, esc := false,
                sawElem := st.sawElem || decide (st.depth = 1) } := by
  simp [scanStep, h]

theorem scanStep_lbrack (st : ScanSt) (h : st.inStr = false) :
    scanStep st '[' =
      { st with depth := st.depth + 1, sawElem := st.sawElem || decide (st.depth = 1) } := by
  simp [scanStep, h]

theorem scanStep_lbrace (st : ScanSt) (h : st.inStr = false) :
    scanStep st lbrace =
      { st with depth := st.depth + 1, sawElem := st.sawElem || decide (st.depth = 1) } := by
  simp [scanStep, h, (by decide : ¬ (lbrace = '"')), (by decide : ¬ (lbrace = '['))]

theorem scanStep_rbrack (st : ScanSt) (h : st.inStr = false) :
    scanStep st ']' = { st with depth := st.depth - 1 } := by
  simp [scanStep, h, (by decide : ¬ (']' = lbrace))]

theorem scanStep_rbrace (st : ScanSt) (h : st.inStr = false) :
    scanStep st rbrace = { st with depth := st.depth - 1 } := by
  simp [scanStep, h, (by decide : ¬ (rbrace = '"')), (by decide : ¬ (rbrace = '[')),
    (by decide : ¬ (rbrace = lbrace))]

theorem scanStep_comma (st : ScanSt) (h : st.inStr = false) :
    scanStep st ',' =
      { st with commas := if st.depth = 1 then st.commas + 1 else st.commas } := by
  simp [scanStep, h, (by decide : ¬ (',' = lbrace)), (by decide : ¬ (',' = rbrace))]

/-! ### Character classes and `scanStep` on character classes -/

theorem wsChar_cases (c : Char) (h : isWsChar c = true) :
    c = ' ' ∨ c = '\t' ∨ c = '\n' ∨ c = '\r' := by
  simp only [isWsChar, Bool.or_eq_true, decide_eq_true_eq] at h
  tauto

theorem scanStep_ws (st : ScanSt) (c : Char) (h : st.inStr = false)
    (hc : isWsChar c = true) : scanStep st c = st := by
  rcases wsChar_cases c hc with rfl | rfl | rfl | rfl <;>
    simp [scanStep, h, (by decide : ¬ (' ' = lbrace)), (by decide : ¬ (' ' = rbrace)),
      (by decide : ¬ ('\t' = lbrace)), (by decide : ¬ ('\t' = rbrace)),
      (by decide : ¬ ('\n' = lbrace)), (by decide : ¬ ('\n' = rbrace)),
      (by decide : ¬ ('\r' = lbrace)), (by decide : ¬ ('\r' = rbrace)), isWsChar]

theorem plainChar_spec (c : Char) (h : isPlainChar c = true) :
    c ≠ '"' ∧ c ≠ '[' ∧ c ≠ lbrace ∧ c ≠ ']' ∧ c ≠ rbrace ∧ c ≠ ',' ∧ isWsChar c = false := by
  simp only [isPlainChar, Bool.and_eq_true, Bool.not_eq_true', beq_eq_false_iff_ne, ne_eq] at h
  exact ⟨h.1.1.1.1.1.1, h.1.1.1.1.1.2, h.1.1.1.1.2, h.1.1.1.2, h.1.1.2, h.1.2, h.2⟩

theorem scanStep_plain (st : ScanSt) (c : Char) (h : st.inStr = false)
    (hc : isPlainChar c = true) :
    scanStep st c = { st with sawElem := st.sawElem || decide (st.depth = 1) } := by
  obtain ⟨h1, h2, h3, h4, h5, h6, h7⟩ := plainChar_spec c hc
  simp [scanStep, h, h1, h2, h3, h4, h5, h6, h7]

theorem skipWs_decomp (l : List Char) :
    ∃ w, l = w ++ skipWs l ∧ ∀ c ∈ w, isWsChar c = true := by
  induction l with
  | nil => exact ⟨[], rfl, by simp⟩
  | cons c cs ih =>
    by_cases hc : isWsChar c = true
    · obtain ⟨w, hw, hwall⟩ := ih
      refine ⟨c :: w, ?_, ?_⟩
      · simp [skipWs, hc]
        exact hw
      · intro d hd
        rcases List.mem_cons.mp hd with rfl | hd
        · exact hc
        · exact hwall d hd
    · refine ⟨[], ?_, by simp⟩
      simp [skipWs, hc]

theorem skipWs_eq_nil_ws (l : List Char) (h : skipWs l = []) : ∀ c ∈ l, isWsChar c = true := by
  induction l with
  | nil => simp
  | cons c cs ih =>
    intro d hd
    by_cases hc : isWsChar c = true
    · simp only [skipWs, hc, if_true] at h
      rcases List.mem_cons.mp hd with rfl | hd
      · exact hc
      · exact ih h d hd
    · simp [skipWs, hc] at h

theorem scanFrom_wsList (w : List Char) :
    ∀ st : ScanSt, st.inStr = false → (∀ c ∈ w, isWsChar c = true) → scanFrom st w = st := by
  induction w with
  | nil => intro st _ _; rfl
  | cons c cs ih =>
    intro st hst hall
    rw [scanFrom_cons, scanStep_ws st c hst (hall c (by simp))]
    exact ih st hst (fun d hd => hall d (List.mem_cons_of_mem c hd))

theorem scanFrom_plainList (x : List Char) (hx : x ≠ []) :
    ∀ st : ScanSt, st.inStr = false → (∀ c ∈ x, isPlainChar c = true) →
      scanFrom st x = { st with sawElem := st.sawElem || decide (st.depth = 1) } := by
  induction x with
  | nil => exact absurd rfl hx
  | cons c cs ih =>
    intro st hst hall
    rw [scanFrom_cons, scanStep_plain st c hst (hall c (by simp))]
    by_cases hcs : cs = []
    · subst hcs; rfl
    · have hrec := ih hcs { st with sawElem := st.sawElem || decide (st.depth = 1) } hst
        (fun d hd => hall d (List.mem_cons_of_mem c hd))
      rw [hrec]
      simp [Bool.or_assoc]

theorem numChar_plain (c : Char) (h : isNumChar c = true) : isPlainChar c = true := by
  by_cases hd : isDigitChar c = true
  · simp only [isDigitChar, Bool.and_eq_true, decide_eq_true_eq] at hd
    obtain ⟨hd1, hd2⟩ := hd
    have h1 : (c == '"') = false := by
      rw [beq_eq_false_iff_ne]; rintro rfl; exact absurd hd1 (by decide)
    have h2 : (c == '[') = false := by
      rw [beq_eq_false_iff_ne]; rintro rfl; exact absurd hd2 (by decide)
    have h3 : (c == lbrace) = false := by
      rw [beq_eq_false_iff_ne]; rintro rfl; exact absurd hd2 (by decide)
    have h4 : (c == ']') = false := by
      rw [beq_eq_false_iff_ne]; rintro rfl; exact absurd hd2 (by decide)
    have h5 : (c == rbrace) = false := by
      rw [beq_eq_false_iff_ne]; rintro rfl; exact absurd hd2 (by decide)
    have h6 : (c == ',') = false := by
      rw [beq_eq_false_iff_ne]; rintro rfl; exact absurd hd1 (by decide)
    have h7 : isWsChar c = false := by
      simp only [isWsChar, Bool.or_eq_false_iff, decide_eq_false_iff_not]
      refine ⟨⟨⟨?_, ?_⟩, ?_⟩, ?_⟩ <;> (rintro rfl; exact absurd hd1 (by decide))
    simp [isPlainChar, h1, h2, h3, h4, h5, h6, h7]
  · have hc : c = '-' ∨ c = '+' ∨ c = '.' ∨ c = 'e' ∨ c = 'E' := by
      simp only [isNumChar, Bool.or_eq_true, decide_eq_true_eq] at h
      tauto
    rcases hc with rfl | rfl | rfl | rfl | rfl <;> decide

theorem hexChar_spec (c : Char) (h : isHexChar c = true) : c ≠ '\\' ∧ c ≠ '"' := by
  simp only [isHexChar, isDigitChar, Bool.or_eq_true, Bool.and_eq_true,
    decide_eq_true_eq] at h
  constructor <;> rintro rfl <;>
    rcases h with (⟨h1, h2⟩ | ⟨h1, h2⟩) | ⟨h1, h2⟩ <;>
      first
      | exact absurd h1 (by decide)
      | exact absurd h2 (by decide)

theorem and4_eq_true {a b c d : Bool} (h : (a && b && c && d) = true) :
    a = true ∧ b = true ∧ c = true ∧ d = true := by
  simp only [Bool.and_eq_true] at h
  tauto

/-- Scanning the characters of a successfully parsed string-literal body
(from just after the opening quote through the closing quote) returns the
scanner from the in-string state to the enclosing state unchanged. -/
theorem parseStringBody_scan (l : List Char) :
    ∀ s r, parseStringBody l = some (s, r) →
      ∃ c, l = c ++ r ∧
        ∀ (d k : Nat) (e : Bool),
          scanFrom ⟨true, false, d, k, e⟩ c = ⟨false, false, d, k, e⟩ := by
  induction l using parseStringBody.induct with
  | case1 =>
    intro s r h
    simp [parseStringBody] at h
  | case2 ds =>
    intro s r h
    rw [parseStringBody.eq_def] at h
    simp at h
    obtain ⟨hs, hr⟩ := h
    subst hr
    refine ⟨['"'], rfl, ?_⟩
    intro d k e
    rw [scanFrom_single, scanStep_inStr_quote _ rfl rfl]
  | case3 hne =>
    intro s r h
    simp [parseStringBody] at h
  | case4 h1 h2 h3 h4 rest hhex s0 r0 hrest hne ih =>
    intro s r h
    obtain ⟨hx1, hx2, hx3, hx4⟩ := and4_eq_true hhex
    simp [parseStringBody, hhex, hrest] at h
    obtain ⟨hs, hr⟩ := h
    subst hr
    obtain ⟨c, hc, hscan⟩ := ih s0 r0 hrest
    refine ⟨'\\' :: 'u' :: h1 :: h2 :: h3 :: h4 :: c, by simp [hc], ?_⟩
    intro d k e
    rw [scanFrom_cons, scanStep_inStr_bs _ rfl rfl]
    rw [scanFrom_cons, scanStep_inStr_esc _ _ rfl rfl]
    rw [scanFrom_cons,
      scanStep_inStr_other _ _ rfl rfl (hexChar_spec h1 hx1).1 (hexChar_spec h1 hx1).2]
    rw [scanFrom_cons,
      scanStep_inStr_other _ _ rfl rfl (hexChar_spec h2 hx2).1 (hexChar_spec h2 hx2).2]
    rw [scanFrom_cons,
      scanStep_inStr_other _ _ rfl rfl (hexChar_spec h3 hx3).1 (hexChar_spec h3 hx3).2]
    rw [scanFrom_cons,
      scanStep_inStr_other _ _ rfl rfl (hexChar_spec h4 hx4).1 (hexChar_spec h4 hx4).2]
    exact hscan d k e
  | case5 h1 h2 h3 h4 rest hhex hrest hne ih =>
    intro s r h
    simp [parseStringBody, hhex, hrest, if_neg hne] at h
  | case6 h1 h2 h3 h4 rest hhex hne =>
    intro s r h
    simp [parseStringBody, hhex, if_neg hne] at h
  | case7 ds hshape hne =>
    intro s r h
    rcases ds with _ | ⟨a1, _ | ⟨a2, _ | ⟨a3, _ | ⟨a4, rest⟩⟩⟩⟩
    · rw [parseStringBody.eq_def] at h; simp at h
    · rw [parseStringBody.eq_def] at h; simp at h
    · rw [parseStringBody.eq_def] at h; simp at h
    · rw [parseStringBody.eq_def] at h; simp at h
    · exact (hshape a1 a2 a3 a4 rest rfl).elim
  | case8 d ds hdu hesc s0 r0 hds hne ih =>
    intro s r h
    rw [parseStringBody.eq_def] at h
    simp [hdu, hesc, hds] at h
    obtain ⟨hs, hr⟩ := h
    subst hr
    obtain ⟨c, hc, hscan⟩ := ih s0 r0 hds
    refine ⟨'\\' :: d :: c, by simp [hc], ?_⟩
    intro dd k e
    rw [scanFrom_cons, scanStep_inStr_bs _ rfl rfl]
    rw [scanFrom_cons, scanStep_inStr_esc _ _ rfl rfl]
    exact hscan dd k e
  | case9 d ds hdu hesc hds hne ih =>
    intro s r h
    rw [parseStringBody.eq_def] at h
    simp [hdu, hesc, hds] at h
  | case10 d ds hdu hesc hne =>
    intro s r h
    rw [parseStringBody.eq_def] at h
    simp [hdu, hesc] at h
  | case11 d ds hdq hdb hctl =>
    intro s r h
    rw [parseStringBody.eq_def] at h
    simp [hdq, hdb, hctl] at h
  | case12 d ds hdq hdb hctl s0 r0 hds ih =>
    intro s r h
    rw [parseStringBody.eq_def] at h
    simp [hdq, hdb, hctl, hds] at h
    obtain ⟨hs, hr⟩ := h
    subst hr
    obtain ⟨c, hc, hscan⟩ := ih s0 r0 hds
    refine ⟨d :: c, by simp [hc], ?_⟩
    intro dd k e
    rw [scanFrom_cons, scanStep_inStr_other _ _ rfl rfl hdb hdq]
    exact hscan dd k e
  | case13 d ds hdq hdb hctl hds ih =>
    intro s r h
    rw [parseStringBody.eq_def] at h
    simp [hdq, hdb, hctl, hds] at h

theorem digit_isNum (c : Char) (h : isDigitChar c = true) : isNumChar c = true := by
  simp [isNumChar, h]

theorem digit19_isDigit (c : Char) (h : isDigit19 c = true) : isDigitChar c = true := by
  simp only [isDigit19, Bool.and_eq_true, decide_eq_true_eq] at h
  simp only [isDigitChar, Bool.and_eq_true, decide_eq_true_eq]
  exact ⟨le_trans (by decide) h.1, h.2⟩

theorem span_digits_decomp (cs : List Char) :
    cs = cs.takeWhile isDigitChar ++ cs.dropWhile isDigitChar ∧
      ∀ c ∈ cs.takeWhile isDigitChar, isDigitChar c = true :=
  ⟨(List.takeWhile_append_dropWhile isDigitChar cs).symm,
    fun _ hc => List.mem_takeWhile_imp hc⟩

theorem numIntPart_spec (l x r : List Char) (h : numIntPart l = some (x, r)) :
    l = x ++ r ∧ x ≠ [] ∧ ∀ c ∈ x, isNumChar c = true := by
  match l with
  | [] => simp [numIntPart] at h
  | c :: cs =>
    rw [numIntPart.eq_def] at h
    by_cases hc : c = '0'
    · subst hc
      simp at h
      obtain ⟨hx, hr⟩ := h
      subst hx; subst hr
      exact ⟨rfl, by simp, by intro c hc; simp at hc; subst hc; decide⟩
    · by_cases h19 : isDigit19 c = true
      · simp [hc, h19] at h
        obtain ⟨hx, hr⟩ := h
        subst hx; subst hr
        obtain ⟨hspan, hall⟩ := span_digits_decomp cs
        refine ⟨by simpa using hspan, by simp, ?_⟩
        intro d hd
        rcases List.mem_cons.mp hd with rfl | hd
        · exact digit_isNum d (digit19_isDigit d h19)
        · exact digit_isNum d (hall d hd)
      · simp [hc, h19] at h

theorem numFracPart_spec (l x r : List Char) (h : numFracPart l = some (x, r)) :
    l = x ++ r ∧ ∀ c ∈ x, isNumChar c = true := by
  match l with
  | [] =>
    simp [numFracPart] at h
    obtain ⟨hx, hr⟩ := h
    subst hx; subst hr
    simp
  | c :: cs =>
    rw [numFracPart.eq_def] at h
    by_cases hc : c = '.'
    · subst hc
      simp at h
      rcases h with ⟨hne, hx, hr⟩
      subst hx; subst hr
      obtain ⟨hspan, hall⟩ := span_digits_decomp cs
      refine ⟨by simpa using hspan, ?_⟩
      intro d hd
      rcases List.mem_cons.mp hd with rfl | hd
      · decide
      · exact digit_isNum d (hall d hd)
    · simp [hc] at h
      obtain ⟨hx, hr⟩ := h
      subst hx; subst hr
      simp

theorem numExpDigits_spec (c : Char) (sgn rest x r : List Char)
    (hc : isNumChar c = true) (hs : ∀ d ∈ sgn, isNumChar d = true)
    (h : numExpDigits c sgn rest = some (x, r)) :
    c :: (sgn ++ rest) = x ++ r ∧ ∀ d ∈ x, isNumChar d = true := by
  unfold numExpDigits at h
  by_cases hemp : (rest.takeWhile isDigitChar).isEmpty = true
  · rw [if_pos hemp] at h; exact absurd h (by simp)
  · rw [if_neg hemp] at h
    simp only [Option.some.injEq, Prod.mk.injEq] at h
    obtain ⟨hx, hr⟩ := h
    subst hx; subst hr
    constructor
    · have := (span_digits_decomp rest).1
      conv_lhs => rw [this]
      simp
    · intro d hd
      rcases List.mem_cons.mp hd with rfl | hd
      · exact hc
      · rcases List.mem_append.mp hd with hd | hd
        · exact hs d hd
        · exact digit_isNum d ((span_digits_decomp rest).2 d hd)

theorem numExpPart_spec (l x r : List Char) (h : numExpPart l = some (x, r)) :
    l = x ++ r ∧ ∀ c ∈ x, isNumChar c = true := by
  match l with
  | [] =>
    simp [numExpPart] at h
    obtain ⟨hx, hr⟩ := h; subst hx; subst hr; simp
  | c :: cs =>
    rw [numExpPart.eq_def] at h
    by_cases he : (c = 'e' || c = 'E') = true
    · simp only [he, if_true] at h
      have hce : isNumChar c = true := by
        rcases (by simpa using he : c = 'e' ∨ c = 'E') with rfl | rfl <;> decide
      match cs with
      | [] => simp at h
      | d :: ds =>
        by_cases hpm : (d = '+' || d = '-') = true
        · simp only [hpm, if_true] at h
          have hdpm : d = '+' ∨ d = '-' := by simpa using hpm
          have hdn : ∀ u ∈ [d], isNumChar u = true := by
            intro u hu
            simp at hu
            subst hu
            rcases hdpm with rfl | rfl <;> decide
          have := numExpDigits_spec c [d] ds x r hce hdn h
          simpa using this
        · rw [Bool.not_eq_true] at hpm
          simp only [hpm, Bool.false_eq_true, if_false] at h
          have := numExpDigits_spec c [] (d :: ds) x r hce (by simp) h
          simpa using this
    · rw [Bool.not_eq_true] at he
      simp only [he, Bool.false_eq_true, if_false, Option.some.injEq, Prod.mk.injEq] at h
      obtain ⟨hx, hr⟩ := h; subst hx; subst hr; simp

theorem parseNumTail_spec (sgn l1 x r : List Char) (hs : ∀ c ∈ sgn, isNumChar c = true)
    (h : parseNumTail sgn l1 = some (x, r)) :
    sgn ++ l1 = x ++ r ∧ x ≠ [] ∧ ∀ c ∈ x, isNumChar c = true := by
  unfold parseNumTail at h
  cases hip : numIntPart l1 with
  | none => simp only [hip] at h; exact absurd h (by simp)
  | some p =>
    obtain ⟨ip, l2⟩ := p
    simp only [hip] at h
    cases hfp : numFracPart l2 with
    | none => simp only [hfp] at h; exact absurd h (by simp)
    | some q =>
      obtain ⟨fp, l3⟩ := q
      simp only [hfp] at h
      cases hep : numExpPart l3 with
      | none => simp only [hep] at h; exact absurd h (by simp)
      | some w =>
        obtain ⟨ep, r2⟩ := w
        simp only [hep, Option.some.injEq, Prod.mk.injEq] at h
        obtain ⟨hx, hr⟩ := h
        subst hx; subst hr
        obtain ⟨hi1, hi2, hi3⟩ := numIntPart_spec l1 ip l2 hip
        obtain ⟨hf1, hf2⟩ := numFracPart_spec l2 fp l3 hfp
        obtain ⟨he1, he2⟩ := numExpPart_spec l3 ep r2 hep
        refine ⟨?_, ?_, ?_⟩
        · rw [hi1, hf1, he1]; simp
        · intro hx0
          rcases List.append_eq_nil.mp hx0 with ⟨hx1, _⟩
          rcases List.append_eq_nil.mp hx1 with ⟨hx2, _⟩
          rcases List.append_eq_nil.mp hx2 with ⟨_, hx3⟩
          exact hi2 hx3
        · intro u hu
          rcases List.mem_append.mp hu with hu | hu
          · rcases List.mem_append.mp hu with hu | hu
            · rcases List.mem_append.mp hu with hu | hu
              · exact hs u hu
              · exact hi3 u hu
            · exact hf2 u hu
          · exact he2 u hu

theorem parseNumber_spec (l x r : List Char) (h : parseNumber l = some (x, r)) :
    l = x ++ r ∧ x ≠ [] ∧ ∀ c ∈ x, isNumChar c = true := by
  match l with
  | [] => simp [parseNumber] at h
  | c :: cs =>
    rw [parseNumber.eq_def] at h
    by_cases hc : c = '-'
    · subst hc
      simp only [↓reduceIte] at h
      have := parseNumTail_spec ['-'] cs x r
        (by intro d hd; simp at hd; subst hd; decide) h
      simpa using this
    · simp only [hc, ↓reduceIte] at h
      have := parseNumTail_spec [] (c :: cs) x r (by simp) h
      simpa using this

theorem expectChars_spec (ps : List Char) :
    ∀ l r, expectChars ps l = some r → l = ps ++ r := by
  induction ps with
  | nil =>
    intro l r h
    simp [expectChars] at h
    simp [h]
  | cons p ps ih =>
    intro l r h
    match l with
    | [] => simp [expectChars] at h
    | c :: cs =>
      rw [expectChars.eq_def] at h
      by_cases hc : c = p
      · subst hc
        simp only [↓reduceIte] at h
        rw [ih cs r h]
        rfl
      · simp only [hc, ↓reduceIte] at h
        exact absurd h (by simp)

theorem scanStep_quoteOpen_mk (dep k : Nat) (sw : Bool) :
    scanStep ⟨false, false, dep, k, sw⟩ '"' = ⟨true, false, dep, k, sw || decide (dep = 1)⟩ :=
  scanStep_quoteOpen _ rfl

theorem scanStep_lbrack_mk (dep k : Nat) (sw : Bool) :
    scanStep ⟨false, false, dep, k, sw⟩ '[' =
      ⟨false, false, dep + 1, k, sw || decide (dep = 1)⟩ :=
  scanStep_lbrack _ rfl

theorem scanStep_rbrack_mk (dep k : Nat) (sw : Bool) :
    scanStep ⟨false, false, dep, k, sw⟩ ']' = ⟨false, false, dep - 1, k, sw⟩ :=
  scanStep_rbrack _ rfl

theorem scanStep_rbrace_mk (dep k : Nat) (sw : Bool) :
    scanStep ⟨false, false, dep, k, sw⟩ rbrace = ⟨false, false, dep - 1, k, sw⟩ :=
  scanStep_rbrace _ rfl

theorem scanStep_comma_mk (dep k : Nat) (sw : Bool) :
    scanStep ⟨false, false, dep, k, sw⟩ ',' =
      ⟨false, false, dep, if dep = 1 then k + 1 else k, sw⟩ :=
  scanStep_comma _ rfl

theorem scanStep_plain_mk (c : Char) (hc : isPlainChar c = true) (dep k : Nat) (sw : Bool) :
    scanStep ⟨false, false, dep, k, sw⟩ c = ⟨false, false, dep, k, sw || decide (dep = 1)⟩ :=
  scanStep_plain _ c rfl hc

theorem scanFrom_ws_mk (w : List Char) (hall : ∀ c ∈ w, isWsChar c = true)
    (dep k : Nat) (sw : Bool) :
    scanFrom ⟨false, false, dep, k, sw⟩ w = ⟨false, false, dep, k, sw⟩ :=
  scanFrom_wsList w _ rfl hall

theorem vPost_mk (i e : Bool) (dep k : Nat) (sw : Bool) :
    vPost ⟨i, e, dep, k, sw⟩ = ⟨false, false, dep, k, sw || decide (dep = 1)⟩ := rfl

theorem mPost_mk (i e : Bool) (dep k : Nat) (sw : Bool) :
    mPost ⟨i, e, dep, k, sw⟩ = ⟨false, false, dep - 1, k, sw⟩ := rfl

/-- Soundness of the parser against the structural scanner, by mutual
induction on fuel: scanning the characters consumed by a successful parse
of a production transforms the scanner state as described by the
corresponding `Post` function. -/
theorem parseScanSound : ∀ fuel, VStmt fuel ∧ ARStmt fuel ∧ EStmt fuel ∧ ORStmt fuel ∧ MStmt fuel := by
  intro fuel
  induction fuel with
  | zero =>
    refine ⟨?_, ?_, ?_, ?_, ?_⟩ <;> exact fun l a r h => Option.noConfusion h
  | succ fuel ih =>
    obtain ⟨ihV, ihAR, ihE, ihOR, ihM⟩ := ih
    refine ⟨?_, ?_, ?_, ?_, ?_⟩
    · -- VStmt (fuel + 1)
      intro l v r h
      cases l with
      | nil => rw [parseValue.eq_def] at h; simp at h
      | cons c cs =>
        rw [parseValue.eq_def] at h
        by_cases hq : c = '"'
        · subst hq
          simp only [↓reduceIte] at h
          cases hsb : parseStringBody cs with
          | none => simp only [hsb] at h; exact absurd h (by simp)
          | some p =>
            obtain ⟨s, r1⟩ := p
            simp only [hsb, Option.some.injEq, Prod.mk.injEq] at h
            obtain ⟨hv, hr⟩ := h
            subst hv; subst hr
            obtain ⟨c0, hdec, hscan⟩ := parseStringBody_scan cs s r1 hsb
            refine ⟨'"' :: c0, by simp [hdec], ?_⟩
            intro st hg hdep
            rw [scanFrom_cons, scanStep_quoteOpen st hg.1]
            rw [hscan st.depth st.commas (st.sawElem || decide (st.depth = 1))]
            rfl
        · by_cases hb : c = '['
          · subst hb
            simp only [hq, ↓reduceIte] at h
            cases har : parseArrayRest fuel cs with
            | none => simp only [har] at h; exact absurd h (by simp)
            | some p =>
              obtain ⟨es, r1⟩ := p
              simp only [har, Option.some.injEq, Prod.mk.injEq] at h
              obtain ⟨hv, hr⟩ := h
              subst hv; subst hr
              obtain ⟨c0, hdec, hscan⟩ := ihAR cs es r1 har
              refine ⟨'[' :: c0, by simp [hdec], ?_⟩
              intro st hg hdep
              rw [scanFrom_cons, scanStep_lbrack st hg.1]
              have h2 := hscan ⟨st.inStr, st.esc, st.depth + 1, st.commas,
                st.sawElem || decide (st.depth = 1)⟩ ⟨hg.1, hg.2⟩
                (by show 1 ≤ st.depth + 1; omega)
              rw [h2]
              have hne : ¬(st.depth + 1 = 1) := by omega
              simp [arPost, vPost, hne, hg.1, hg.2]
          · by_cases hbr : c = lbrace
            · subst hbr
              simp only [hq, hb, ↓reduceIte] at h
              cases hor : parseObjRest fuel cs with
              | none => simp only [hor] at h; exact absurd h (by simp)
              | some p =>
                obtain ⟨ms, r1⟩ := p
                simp only [hor, Option.some.injEq, Prod.mk.injEq] at h
                obtain ⟨hv, hr⟩ := h
                subst hv; subst hr
                obtain ⟨c0, hdec, hscan⟩ := ihOR cs ms r1 hor
                refine ⟨lbrace :: c0, by simp [hdec], ?_⟩
                intro st hg hdep
                rw [scanFrom_cons, scanStep_lbrace st hg.1]
                have h2 := hscan ⟨st.inStr, st.esc, st.depth + 1, st.commas,
                  st.sawElem || decide (st.depth = 1)⟩ ⟨hg.1, hg.2⟩
                  (by show 2 ≤ st.depth + 1; omega)
                rw [h2]
                simp [mPost, vPost, hg.1, hg.2]
            · by_cases ht : c = 't'
              · subst ht
                simp only [hq, hb, hbr, ↓reduceIte] at h
                cases hex : expectChars ['r', 'u', 'e'] cs with
                | none => simp only [hex] at h; exact absurd h (by simp)
                | some r1 =>
                  simp only [hex, Option.some.injEq, Prod.mk.injEq] at h
                  obtain ⟨hv, hr⟩ := h
                  subst hv; subst hr
                  have hcs := expectChars_spec ['r', 'u', 'e'] cs r1 hex
                  refine ⟨['t', 'r', 'u', 'e'], by simp [hcs], ?_⟩
                  intro st hg hdep
                  rw [scanFrom_plainList ['t', 'r', 'u', 'e'] (by simp) st hg.1 (by decide)]
                  simp [vPost, hg.1, hg.2]
              · by_cases hf : c = 'f'
                · subst hf
                  simp only [hq, hb, hbr, ht, ↓reduceIte] at h
                  cases hex : expectChars ['a', 'l', 's', 'e'] cs with
                  | none => simp only [hex] at h; exact absurd h (by simp)
                  | some r1 =>
                    simp only [hex, Option.some.injEq, Prod.mk.injEq] at h
                    obtain ⟨hv, hr⟩ := h
                    subst hv; subst hr
                    have hcs := expectChars_spec ['a', 'l', 's', 'e'] cs r1 hex
                    refine ⟨['f', 'a', 'l', 's', 'e'], by simp [hcs], ?_⟩
                    intro st hg hdep
                    rw [scanFrom_plainList ['f', 'a', 'l', 's', 'e'] (by simp) st hg.1
                      (by decide)]
                    simp [vPost, hg.1, hg.2]
                · by_cases hn : c = 'n'
                  · subst hn
                    simp only [hq, hb, hbr, ht, hf, ↓reduceIte] at h
                    cases hex : expectChars ['u', 'l', 'l'] cs with
                    | none => simp only [hex] at h; exact absurd h (by simp)
                    | some r1 =>
                      simp only [hex, Option.some.injEq, Prod.mk.injEq] at h
                      obtain ⟨hv, hr⟩ := h
                      subst hv; subst hr
                      have hcs := expectChars_spec ['u', 'l', 'l'] cs r1 hex
                      refine ⟨['n', 'u', 'l', 'l'], by simp [hcs], ?_⟩
                      intro st hg hdep
                      rw [scanFrom_plainList ['n', 'u', 'l', 'l'] (by simp) st hg.1
                        (by decide)]
                      simp [vPost, hg.1, hg.2]
                  · by_cases hnum : (c = '-' || isDigitChar c) = true
                    · simp only [hq, hb, hbr, ht, hf, hn, hnum, ↓reduceIte, if_true] at h
                      cases hpn : parseNumber (c :: cs) with
                      | none => simp only [hpn] at h; exact absurd h (by simp)
                      | some p =>
                        obtain ⟨x, r1⟩ := p
                        simp only [hpn, Option.some.injEq, Prod.mk.injEq] at h
                        obtain ⟨hv, hr⟩ := h
                        subst hv; subst hr
                        obtain ⟨hxdec, hxne, hxnum⟩ := parseNumber_spec (c :: cs) x r1 hpn
                        refine ⟨x, hxdec, ?_⟩
                        intro st hg hdep
                        rw [scanFrom_plainList x hxne st hg.1
                          (fun u hu => numChar_plain u (hxnum u hu))]
                        simp [vPost, hg.1, hg.2]
                    · rw [Bool.not_eq_true] at hnum
                      simp only [hq, hb, hbr, ht, hf, hn, hnum, Bool.false_eq_true,
                        ↓reduceIte] at h
                      exact absurd h (by simp)
    · -- ARStmt (fuel + 1)
      intro l es r h
      rw [parseArrayRest.eq_def] at h
      cases hsw : skipWs l with
      | nil => simp [hsw] at h
      | cons c0 r0 =>
        simp only [hsw] at h
        by_cases hc : c0 = ']'
        · subst hc
          simp only [↓reduceIte, Option.some.injEq, Prod.mk.injEq] at h
          obtain ⟨hes, hr⟩ := h
          subst hes; subst hr
          obtain ⟨w, hw, hwall⟩ := skipWs_decomp l
          refine ⟨w ++ [']'], ?_, ?_⟩
          · rw [hw, hsw]; simp
          · intro st hg hdep
            rw [scanFrom_append, scanFrom_wsList w st hg.1 hwall, scanFrom_single,
              scanStep_rbrack st hg.1]
            simp [arPost, hg.1, hg.2]
        · simp only [hc, ↓reduceIte] at h
          obtain ⟨hne, c1, hdec, hscan⟩ := ihE (c0 :: r0) es r h
          obtain ⟨w, hw, hwall⟩ := skipWs_decomp l
          refine ⟨w ++ c1, ?_, ?_⟩
          · rw [hw, hsw, hdec]; simp
          · intro st hg hdep
            rw [scanFrom_append, scanFrom_wsList w st hg.1 hwall]
            exact hscan st hg hdep
    · -- EStmt (fuel + 1)
      intro l es r h
      rw [parseElemsA.eq_def] at h
      cases hv : parseValue fuel l with
      | none => simp [hv] at h
      | some p =>
        obtain ⟨v, r1⟩ := p
        simp only [hv] at h
        cases hsw : skipWs r1 with
        | nil => simp [hsw] at h
        | cons c0 r2 =>
          simp only [hsw] at h
          by_cases hcomma : c0 = ','
          · subst hcomma
            simp only [↓reduceIte] at h
            cases hrec : parseElemsA fuel (skipWs r2) with
            | none => simp [hrec] at h
            | some q =>
              obtain ⟨vs, r3⟩ := q
              simp only [hrec, Option.some.injEq, Prod.mk.injEq] at h
              obtain ⟨hes, hr⟩ := h
              subst hes; subst hr
              obtain ⟨hvsne, c2, hdec2, hscan2⟩ := ihE (skipWs r2) vs r3 hrec
              obtain ⟨cV, hdecV, hscanV⟩ := ihV l v r1 hv
              obtain ⟨w1, hw1, hw1all⟩ := skipWs_decomp r1
              obtain ⟨w2, hw2, hw2all⟩ := skipWs_decomp r2
              refine ⟨by simp, cV ++ (w1 ++ (',' :: (w2 ++ c2))), ?_, ?_⟩
              · rw [hdecV, hw1, hsw, hw2, hdec2]; simp
              · intro st hg hdep
                obtain ⟨si, se, dep, k, sw⟩ := st
                obtain ⟨hg1, hg2⟩ := hg
                dsimp only at hg1 hg2 hdep
                subst hg1; subst hg2
                rw [scanFrom_append, hscanV ⟨false, false, dep, k, sw⟩ ⟨rfl, rfl⟩ hdep,
                  vPost_mk]
                rw [scanFrom_append, scanFrom_ws_mk w1 hw1all]
                rw [scanFrom_cons, scanStep_comma_mk]
                rw [scanFrom_append, scanFrom_ws_mk w2 hw2all]
                rw [hscan2 ⟨false, false, dep, if dep = 1 then k + 1 else k,
                  sw || decide (dep = 1)⟩ ⟨rfl, rfl⟩ hdep]
                have hlen : 0 < vs.length := List.length_pos.mpr hvsne
                by_cases hd1 : dep = 1
                · simp [arPost, hd1]
                  omega
                · simp [arPost, hd1]
          · by_cases hrb : c0 = ']'
            · subst hrb
              simp only [hcomma, ↓reduceIte, Option.some.injEq, Prod.mk.injEq] at h
              obtain ⟨hes, hr⟩ := h
              subst hes; subst hr
              obtain ⟨cV, hdecV, hscanV⟩ := ihV l v r1 hv
              obtain ⟨w1, hw1, hw1all⟩ := skipWs_decomp r1
              refine ⟨by simp, cV ++ (w1 ++ [']']), ?_, ?_⟩
              · rw [hdecV, hw1, hsw]; simp
              · intro st hg hdep
                obtain ⟨si, se, dep, k, sw⟩ := st
                obtain ⟨hg1, hg2⟩ := hg
                dsimp only at hg1 hg2 hdep
                subst hg1; subst hg2
                rw [scanFrom_append, hscanV ⟨false, false, dep, k, sw⟩ ⟨rfl, rfl⟩ hdep,
                  vPost_mk]
                rw [scanFrom_append, scanFrom_ws_mk w1 hw1all]
                rw [scanFrom_single, scanStep_rbrack_mk]
                simp [arPost]
            · simp only [hcomma, hrb, ↓reduceIte] at h
              exact absurd h (by simp)
    · -- ORStmt (fuel + 1)
      intro l ms r h
      rw [parseObjRest.eq_def] at h
      cases hsw : skipWs l with
      | nil => simp [hsw] at h
      | cons c0 r0 =>
        simp only [hsw] at h
        by_cases hc : c0 = rbrace
        · subst hc
          simp only [↓reduceIte, Option.some.injEq, Prod.mk.injEq] at h
          obtain ⟨hms, hr⟩ := h
          subst hms; subst hr
          obtain ⟨w, hw, hwall⟩ := skipWs_decomp l
          refine ⟨w ++ [rbrace], ?_, ?_⟩
          · rw [hw, hsw]; simp
          · intro st hg hdep
            rw [scanFrom_append, scanFrom_wsList w st hg.1 hwall, scanFrom_single,
              scanStep_rbrace st hg.1]
            simp [mPost, hg.1, hg.2]
        · simp only [hc, ↓reduceIte] at h
          obtain ⟨c1, hdec, hscan⟩ := ihM (c0 :: r0) ms r h
          obtain ⟨w, hw, hwall⟩ := skipWs_decomp l
          refine ⟨w ++ c1, ?_, ?_⟩
          · rw [hw, hsw, hdec]; simp
          · intro st hg hdep
            rw [scanFrom_append, scanFrom_wsList w st hg.1 hwall]
            exact hscan st hg hdep
    · -- MStmt (fuel + 1)
      intro l ms r h
      cases l with
      | nil => rw [parseMembers.eq_def] at h; simp at h
      | cons c cs =>
        rw [parseMembers.eq_def] at h
        by_cases hq : c = '"'
        case neg => simp [hq] at h
        case pos =>
        subst hq
        simp only [↓reduceIte] at h
        cases hsb : parseStringBody cs with
        | none => simp [hsb] at h
        | some p =>
          obtain ⟨k0, r1⟩ := p
          simp only [hsb] at h
          cases hsw1 : skipWs r1 with
          | nil => simp [hsw1] at h
          | cons d0 r2 =>
            simp only [hsw1] at h
            by_cases hcolon : d0 = ':'
            case neg => simp [hcolon] at h
            case pos =>
            subst hcolon
            simp only [↓reduceIte] at h
            cases hv : parseValue fuel (skipWs r2) with
            | none => simp [hv] at h
            | some q =>
              obtain ⟨v, r3⟩ := q
              simp only [hv] at h
              cases hsw3 : skipWs r3 with
              | nil => simp [hsw3] at h
              | cons e0 r4 =>
                simp only [hsw3] at h
                by_cases hcm : e0 = ','
                · subst hcm
                  simp only [↓reduceIte] at h
                  cases hrec : parseMembers fuel (skipWs r4) with
                  | none => simp [hrec] at h
                  | some w0 =>
                    obtain ⟨ms2, r5⟩ := w0
                    simp only [hrec, Option.some.injEq, Prod.mk.injEq] at h
                    obtain ⟨hms, hr⟩ := h
                    subst hms; subst hr
                    obtain ⟨cS, hdecS, hscanS⟩ := parseStringBody_scan cs k0 r1 hsb
                    obtain ⟨w1, hw1, hw1all⟩ := skipWs_decomp r1
                    obtain ⟨w2, hw2, hw2all⟩ := skipWs_decomp r2
                    obtain ⟨cV, hdecV, hscanV⟩ := ihV (skipWs r2) v r3 hv
                    obtain ⟨w3, hw3, hw3all⟩ := skipWs_decomp r3
                    obtain ⟨w4, hw4, hw4all⟩ := skipWs_decomp r4
                    obtain ⟨cM, hdecM, hscanM⟩ := ihM (skipWs r4) ms2 r5 hrec
                    refine ⟨'"' :: (cS ++ (w1 ++ (':' :: (w2 ++ (cV ++ (w3 ++
                      (',' :: (w4 ++ cM)))))))), ?_, ?_⟩
                    · rw [hdecS, hw1, hsw1, hw2, hdecV, hw3, hsw3, hw4, hdecM]; simp
                    · intro st hg hdep
                      obtain ⟨si, se, dep, k, sw⟩ := st
                      obtain ⟨hg1, hg2⟩ := hg
                      dsimp only at hg1 hg2 hdep
                      subst hg1; subst hg2
                      have hne : ¬ dep = 1 := by omega
                      have hd1 : decide (dep = 1) = false := by
                        simp only [decide_eq_false_iff_not]; exact hne
                      rw [scanFrom_cons, scanStep_quoteOpen_mk]
                      simp only [hd1, Bool.or_false]
                      rw [scanFrom_append, hscanS dep k sw]
                      rw [scanFrom_append, scanFrom_ws_mk w1 hw1all]
                      rw [scanFrom_cons, scanStep_plain_mk ':' (by decide)]
                      simp only [hd1, Bool.or_false]
                      rw [scanFrom_append, scanFrom_ws_mk w2 hw2all]
                      rw [scanFrom_append,
                        hscanV ⟨false, false, dep, k, sw⟩ ⟨rfl, rfl⟩
                          (by show 1 ≤ dep; omega),
                        vPost_mk]
                      simp only [hd1, Bool.or_false]
                      rw [scanFrom_append, scanFrom_ws_mk w3 hw3all]
                      rw [scanFrom_cons, scanStep_comma_mk, if_neg hne]
                      rw [scanFrom_append, scanFrom_ws_mk w4 hw4all]
                      rw [hscanM ⟨false, false, dep, k, sw⟩ ⟨rfl, rfl⟩ hdep, mPost_mk]
                · by_cases hrb : e0 = rbrace
                  · subst hrb
                    simp only [hcm, ↓reduceIte, Option.some.injEq, Prod.mk.injEq] at h
                    obtain ⟨hms, hr⟩ := h
                    subst hms; subst hr
                    obtain ⟨cS, hdecS, hscanS⟩ := parseStringBody_scan cs k0 r1 hsb
                    obtain ⟨w1, hw1, hw1all⟩ := skipWs_decomp r1
                    obtain ⟨w2, hw2, hw2all⟩ := skipWs_decomp r2
                    obtain ⟨cV, hdecV, hscanV⟩ := ihV (skipWs r2) v r3 hv
                    obtain ⟨w3, hw3, hw3all⟩ := skipWs_decomp r3
                    refine ⟨'"' :: (cS ++ (w1 ++ (':' :: (w2 ++ (cV ++ (w3 ++
                      [rbrace])))))), ?_, ?_⟩
                    · rw [hdecS, hw1, hsw1, hw2, hdecV, hw3, hsw3]; simp
                    · intro st hg hdep
                      obtain ⟨si, se, dep, k, sw⟩ := st
                      obtain ⟨hg1, hg2⟩ := hg
                      dsimp only at hg1 hg2 hdep
                      subst hg1; subst hg2
                      have hne : ¬ dep = 1 := by omega
                      have hd1 : decide (dep = 1) = false := by
                        simp only [decide_eq_false_iff_not]; exact hne
                      rw [scanFrom_cons, scanStep_quoteOpen_mk]
                      simp only [hd1, Bool.or_false]
                      rw [scanFrom_append, hscanS dep k sw]
                      rw [scanFrom_append, scanFrom_ws_mk w1 hw1all]
                      rw [scanFrom_cons, scanStep_plain_mk ':' (by decide)]
                      simp only [hd1, Bool.or_false]
                      rw [scanFrom_append, scanFrom_ws_mk w2 hw2all]
                      rw [scanFrom_append,
                        hscanV ⟨false, false, dep, k, sw⟩ ⟨rfl, rfl⟩
                          (by show 1 ≤ dep; omega),
                        vPost_mk]
                      simp only [hd1, Bool.or_false]
                      rw [scanFrom_append, scanFrom_ws_mk w3 hw3all]
                      rw [scanFrom_single, scanStep_rbrace_mk]
                      simp [mPost]
                  · simp only [hcm, hrb, ↓reduceIte] at h
                    exact absurd h (by simp)

/-- A top-level successful parse of an array, started at depth 0, drives
the scanner from the initial state to a final state recording the element
count. -/
theorem parseValue_arr_scan (fuel : Nat) (l1 : List Char) (es : List JVal) (r : List Char)
    (h : parseValue fuel l1 = some (.arr es, r)) :
    ∃ c, l1 = c ++ r ∧
      scanFrom ⟨false, false, 0, 0, false⟩ c =
        ⟨false, false, 0, es.length - 1, !es.isEmpty⟩ := by
  cases fuel with
  | zero => exact Option.noConfusion h
  | succ fuel =>
    cases l1 with
    | nil => rw [parseValue.eq_def] at h; simp at h
    | cons c cs =>
      rw [parseValue.eq_def] at h
      by_cases hq : c = '"'
      · subst hq
        simp only [↓reduceIte] at h
        cases hsb : parseStringBody cs with
        | none => simp [hsb] at h
        | some p => obtain ⟨s, r1⟩ := p; simp [hsb] at h
      · by_cases hb : c = '['
        · subst hb
          simp only [hq, ↓reduceIte] at h
          cases har : parseArrayRest fuel cs with
          | none => simp [har] at h
          | some p =>
            obtain ⟨es2, r1⟩ := p
            simp only [har, Option.some.injEq, Prod.mk.injEq, JVal.arr.injEq] at h
            obtain ⟨hes, hr⟩ := h
            subst hes; subst hr
            obtain ⟨c0, hdec, hscan⟩ := (parseScanSound fuel).2.1 cs es2 r1 har
            refine ⟨'[' :: c0, by simp [hdec], ?_⟩
            rw [scanFrom_cons, scanStep_lbrack_mk]
            have h2 := hscan ⟨false, false, 0 + 1, 0, false || decide ((0 : Nat) = 1)⟩
              ⟨rfl, rfl⟩ (by decide)
            rw [h2]
            simp [arPost]
        · by_cases hbr : c = lbrace
          · subst hbr
            simp only [hq, hb, ↓reduceIte] at h
            cases hor : parseObjRest fuel cs with
            | none => simp [hor] at h
            | some p => obtain ⟨ms, r1⟩ := p; simp [hor] at h
          · by_cases ht : c = 't'
            · subst ht
              simp only [hq, hb, hbr, ↓reduceIte] at h
              cases hex : expectChars ['r', 'u', 'e'] cs with
              | none => simp [hex] at h
              | some r1 => simp [hex] at h
            · by_cases hf : c = 'f'
              · subst hf
                simp only [hq, hb, hbr, ht, ↓reduceIte] at h
                cases hex : expectChars ['a', 'l', 's', 'e'] cs with
                | none => simp [hex] at h
                | some r1 => simp [hex] at h
              · by_cases hn : c = 'n'
                · subst hn
                  simp only [hq, hb, hbr, ht, hf, ↓reduceIte] at h
                  cases hex : expectChars ['u', 'l', 'l'] cs with
                  | none => simp [hex] at h
                  | some r1 => simp [hex] at h
                · by_cases hnum : (c = '-' || isDigitChar c) = true
                  · simp only [hq, hb, hbr, ht, hf, hn, hnum, ↓reduceIte, if_true] at h
                    cases hpn : parseNumber (c :: cs) with
                    | none => simp [hpn] at h
                    | some p => obtain ⟨x, r1⟩ := p; simp [hpn] at h
                  · rw [Bool.not_eq_true] at hnum
                    simp only [hq, hb, hbr, ht, hf, hn, hnum, Bool.false_eq_true,
                      ↓reduceIte] at h
                    exact absurd h (by simp)

/-- The scanner characterization of a whole-text strict parse yielding an
array. -/
theorem jparse_arr_scan (l : List Char) (es : List JVal)
    (h : jparse l = some (JVal.arr es)) :
    scanOf l = ⟨false, false, 0, es.length - 1, !es.isEmpty⟩ := by
  unfold jparse at h
  cases hv : parseValue (2 * l.length + 4) (skipWs l) with
  | none => simp [hv] at h
  | some p =>
    obtain ⟨v, r⟩ := p
    simp only [hv] at h
    by_cases hre : (skipWs r).isEmpty = true
    · rw [if_pos hre] at h
      simp only [Option.some.injEq] at h
      subst h
      obtain ⟨c, hdec, hscan⟩ := parseValue_arr_scan _ _ es r hv
      obtain ⟨w0, hw0, hw0all⟩ := skipWs_decomp l
      have hrws : ∀ c2 ∈ r, isWsChar c2 = true :=
        skipWs_eq_nil_ws r (List.isEmpty_iff.mp hre)
      unfold scanOf scanInit
      rw [show l = w0 ++ (c ++ r) from by rw [hw0, hdec]]
      rw [scanFrom_append, scanFrom_ws_mk w0 hw0all]
      rw [scanFrom_append, hscan]
      exact scanFrom_ws_mk r hrws 0 (es.length - 1) (!es.isEmpty)
    · rw [if_neg hre] at h
      exact absurd h (by simp)

/-- Scanner characterization of a successful repair parse: the buffer
itself (without the appended bracket) is outside any string and already
records the element count. -/
theorem jparse_close_scan (b : List Char) (es : List JVal)
    (h : jparse (b ++ [']']) = some (JVal.arr es)) :
    (scanOf b).inStr = false ∧ (scanOf b).commas = es.length - 1 ∧
      (scanOf b).sawElem = !es.isEmpty := by
  have hfull := jparse_arr_scan _ es h
  have happ : scanOf (b ++ [']']) = scanStep (scanOf b) ']' := by
    unfold scanOf
    rw [scanFrom_append, scanFrom_single]
  rw [happ] at hfull
  by_cases hin : (scanOf b).inStr = true
  · exfalso
    by_cases hesc : (scanOf b).esc = true
    · rw [scanStep_inStr_esc _ _ hin hesc] at hfull
      have hc := congrArg ScanSt.inStr hfull
      simp at hc
      rw [hc] at hin
      exact Bool.noConfusion hin
    · rw [Bool.not_eq_true] at hesc
      rw [scanStep_inStr_other _ _ hin hesc (by decide) (by decide)] at hfull
      have hc := congrArg ScanSt.inStr hfull
      simp at hc
      rw [hc] at hin
      exact Bool.noConfusion hin
  · rw [Bool.not_eq_true] at hin
    rw [scanStep_rbrack _ hin] at hfull
    refine ⟨hin, ?_, ?_⟩
    · have hc := congrArg ScanSt.commas hfull
      simpa using hc
    · have hc := congrArg ScanSt.sawElem hfull
      simpa using hc

theorem emitBound_of_strict (b : List Char) (es : List JVal)
    (h : jparse b = some (JVal.arr es)) : emitBound (scanOf b) = es.length := by
  rw [emitBound, jparse_arr_scan b es h]
  cases es with
  | nil => simp
  | cons e es2 => simp

theorem emitBound_of_close (b : List Char) (es : List JVal)
    (h : jparse (b ++ [']']) = some (JVal.arr es)) : emitBound (scanOf b) = es.length := by
  obtain ⟨h1, h2, h3⟩ := jparse_close_scan b es h
  rw [emitBound, h2, h3]
  cases es with
  | nil => simp
  | cons e es2 => simp

theorem scanStep_commas_le (st : ScanSt) (c : Char) : st.commas ≤ (scanStep st c).commas := by
  unfold scanStep
  split_ifs <;> simp <;> omega

theorem scanStep_sawElem_mono (st : ScanSt) (c : Char) (h : st.sawElem = true) :
    (scanStep st c).sawElem = true := by
  unfold scanStep
  split_ifs <;> simp [h]

theorem scanFrom_commas_le (l : List Char) :
    ∀ st : ScanSt, st.commas ≤ (scanFrom st l).commas := by
  induction l with
  | nil => intro st; exact le_refl _
  | cons c cs ih =>
    intro st
    rw [scanFrom_cons]
    exact le_trans (scanStep_commas_le st c) (ih _)

theorem scanFrom_sawElem_mono (l : List Char) :
    ∀ st : ScanSt, st.sawElem = true → (scanFrom st l).sawElem = true := by
  induction l with
  | nil => intro st h; exact h
  | cons c cs ih =>
    intro st h
    rw [scanFrom_cons]
    exact ih _ (scanStep_sawElem_mono st c h)

/-- The scanner's element count never decreases as the buffer grows. -/
theorem emitBound_mono (b t : List Char) :
    emitBound (scanOf b) ≤ emitBound (scanOf (b ++ t)) := by
  unfold scanOf emitBound
  rw [scanFrom_append]
  by_cases hsw : (scanFrom scanInit b).sawElem = true
  · rw [if_pos hsw, if_pos (scanFrom_sawElem_mono t _ hsw)]
    exact Nat.add_le_add_right (scanFrom_commas_le t _) 1
  · rw [if_neg hsw]
    exact Nat.zero_le _

theorem repairCandidate_eq (b : List Char) : repairCandidate b = b ++ [']'] := by
  unfold repairCandidate
  split <;> rfl

theorem feed_buffer (st : ParserRun) (c : List Char) :
    (feed st c).buffer = st.buffer ++ c := by
  unfold feed
  cases hj : jparse (st.buffer ++ c) with
  | some v => cases v <;> rfl
  | none =>
    cases hr : jparse (repairCandidate (st.buffer ++ c)) with
    | some v =>
      cases v with
      | arr es =>
        simp only
        split <;> rfl
      | null => rfl
      | bool b2 => rfl
      | num x => rfl
      | str s2 => rfl
      | obj ms => rfl
    | none => rfl

/-- One loop iteration preserves the invariantks and never shrinks the
emitted panel list. -/
theorem runInv_feed (st : ParserRun) (c : List Char) (h : RunInv st) :
    RunInv (feed st c) ∧ st.scenes.length ≤ (feed st c).scenes.length := by
  obtain ⟨hlen, hbound⟩ := h
  have hmono := emitBound_mono st.buffer c
  unfold feed
  cases hj : jparse (st.buffer ++ c) with
  | some v =>
    cases v with
    | arr es =>
      have hg : emitBound (scanOf (st.buffer ++ c)) = es.length :=
        emitBound_of_strict _ es hj
      constructor
      · exact ⟨tagPanels_length es, le_of_eq hg.symm⟩
      · rw [tagPanels_length es]
        omega
    | null => exact ⟨⟨hlen, le_trans hbound hmono⟩, le_refl _⟩
    | bool b2 => exact ⟨⟨hlen, le_trans hbound hmono⟩, le_refl _⟩
    | num x => exact ⟨⟨hlen, le_trans hbound hmono⟩, le_refl _⟩
    | str s2 => exact ⟨⟨hlen, le_trans hbound hmono⟩, le_refl _⟩
    | obj ms => exact ⟨⟨hlen, le_trans hbound hmono⟩, le_refl _⟩
  | none =>
    cases hr : jparse (repairCandidate (st.buffer ++ c)) with
    | some v =>
      cases v with
      | arr es =>
        rw [repairCandidate_eq] at hr
        have hg : emitBound (scanOf (st.buffer ++ c)) = es.length :=
          emitBound_of_close _ es hr
        simp only
        by_cases hlt : st.lastParsedLength < es.length
        · rw [if_pos hlt]
          constructor
          · exact ⟨tagPanels_length es, le_of_eq hg.symm⟩
          · rw [tagPanels_length es]
            omega
        · rw [if_neg hlt]
          exact ⟨⟨hlen, le_trans hbound hmono⟩, le_refl _⟩
      | null => exact ⟨⟨hlen, le_trans hbound hmono⟩, le_refl _⟩
      | bool b2 => exact ⟨⟨hlen, le_trans hbound hmono⟩, le_refl _⟩
      | num x => exact ⟨⟨hlen, le_trans hbound hmono⟩, le_refl _⟩
      | str s2 => exact ⟨⟨hlen, le_trans hbound hmono⟩, le_refl _⟩
      | obj ms => exact ⟨⟨hlen, le_trans hbound hmono⟩, le_refl _⟩
    | none => exact ⟨⟨hlen, le_trans hbound hmono⟩, le_refl _⟩

theorem runInv_foldl (cs : List (List Char)) :
    ∀ st : ParserRun, RunInv st → RunInv (cs.foldl feed st) := by
  induction cs with
  | nil => intro st h; exact h
  | cons c cs ih =>
    intro st h
    exact ih (feed st c) (runInv_feed st c h).1

theorem runStream_inv (cs : List (List Char)) : RunInv (runStream cs) :=
  runInv_foldl cs initRun ⟨rfl, Nat.zero_le _⟩

theorem runStream_concat (cs : List (List Char)) (c : List Char) :
    runStream (cs ++ [c]) = feed (runStream cs) c := by
  unfold runStream
  rw [List.foldl_append]
  rfl

theorem runStream_append_le (t cs : List (List Char)) :
    (runStream cs).scenes.length ≤ (runStream (cs ++ t)).scenes.length := by
  induction t generalizing cs with
  | nil => rw [List.append_nil]
  | cons c t ih =>
    have h1 : (runStream cs).scenes.length ≤ (runStream (cs ++ [c])).scenes.length := by
      rw [runStream_concat]
      exact (runInv_feed _ c (runStream_inv cs)).2
    have h2 := ih (cs ++ [c])
    rw [List.append_cons]
    exact le_trans h1 h2

/-- A mid-string fragment boundary makes both the strict and the repair
parse fail, so the loop iteration emits nothing. -/
theorem feed_midString (st : ParserRun) (c : List Char)
    (hmid : (scanOf (st.buffer ++ c)).inStr = true) :
    (feed st c).scenes = st.scenes ∧
      (feed st c).lastParsedLength = st.lastParsedLength := by
  unfold feed
  cases hj : jparse (st.buffer ++ c) with
  | some v =>
    cases v with
    | arr es =>
      exfalso
      rw [jparse_arr_scan _ es hj] at hmid
      exact Bool.noConfusion hmid
    | null => exact ⟨rfl, rfl⟩
    | bool b2 => exact ⟨rfl, rfl⟩
    | num x => exact ⟨rfl, rfl⟩
    | str s2 => exact ⟨rfl, rfl⟩
    | obj ms => exact ⟨rfl, rfl⟩
  | none =>
    cases hr : jparse (repairCandidate (st.buffer ++ c)) with
    | some v =>
      cases v with
      | arr es =>
        exfalso
        rw [repairCandidate_eq] at hr
        obtain ⟨hin, _, _⟩ := jparse_close_scan _ es hr
        rw [hin] at hmid
        exact Bool.noConfusion hmid
      | null => exact ⟨rfl, rfl⟩
      | bool b2 => exact ⟨rfl, rfl⟩
      | num x => exact ⟨rfl, rfl⟩
      | str s2 => exact ⟨rfl, rfl⟩
      | obj ms => exact ⟨rfl, rfl⟩
    | none => exact ⟨rfl, rfl⟩

theorem foldl_feed_buffer (cs : List (List Char)) :
    ∀ st : ParserRun, (cs.foldl feed st).buffer = st.buffer ++ cs.join := by
  induction cs with
  | nil => intro st; simp
  | cons c cs ih =>
    intro st
    rw [List.foldl_cons, ih (feed st c), feed_buffer]
    simp

theorem runStream_buffer (cs : List (List Char)) : (runStream cs).buffer = cs.join := by
  unfold runStream
  rw [foldl_feed_buffer]
  rfl

/-- C1: across any fragment sequence, the length of the panel list
emitted by the streaming script parser (`generateScripts`, lines 194-219)
is non-decreasing: after any prefix of the fragments the emitted list is
at least as long as after any shorter prefix, so the parser never
re-emits a shorter list (in particular not when the tail element of the
buffer is still incomplete).  The strict-parse branch can emit
unconditionally, but a successful strict parse of a grown buffer always
yields at least as many elements as any previous emission, by the
scanner bound `emitBound`. -/
theorem c1_emitted_length_monotone (chunks : List (List Char)) (i j : Nat) (hij : i ≤ j) :
    (runStream (chunks.take i)).scenes.length ≤
      (runStream (chunks.take j)).scenes.length := by
  have hsplit : chunks.take j = chunks.take i ++ ((chunks.take j).drop i) := by
    conv_lhs => rw [← List.take_append_drop i (chunks.take j)]
    rw [List.take_take, Nat.min_eq_left hij]
  rw [hsplit]
  exact runStream_append_le _ _

theorem c1_witness :
    (runStream ([['['], ['1', ']']].take 1)).scenes.length ≤
      (runStream ([['['], ['1', ']']].take 2)).scenes.length :=
  c1_emitted_length_monotone [['['], ['1', ']']] 1 2 (by decide)

/-- C4: when a fragment boundary falls inside a string value (the
accumulated buffer ends inside an unterminated string literal, as
witnessed by the scanner's in-string flag), the iteration of
`generateScripts` that processes this fragment emits nothing: both the
strict parse and the repair parse of the buffer fail, so the emitted
panel list is exactly the list emitted before the fragment — only panels
wholly written before the split point are ever visible, and no emitted
panel can hold the truncated string. -/
theorem c4_mid_string_boundary_emits_nothing (chunks : List (List Char)) (c : List Char)
    (hmid : (scanOf ((runStream chunks).buffer ++ c)).inStr = true) :
    (feed (runStream chunks) c).scenes = (runStream chunks).scenes ∧
      (feed (runStream chunks) c).lastParsedLength =
        (runStream chunks).lastParsedLength :=
  feed_midString (runStream chunks) c hmid

theorem c4_witness :
    (feed (runStream []) ['[', '"', 's', 'c', 'r', 'i']).scenes =
        (runStream []).scenes ∧
      (feed (runStream []) ['[', '"', 's', 'c', 'r', 'i']).lastParsedLength =
        (runStream []).lastParsedLength :=
  c4_mid_string_boundary_emits_nothing [] ['[', '"', 's', 'c', 'r', 'i'] rfl

/-- C3: for every fragment sequence whose concatenation is a valid JSON
array of `n` panel objects, the final state of the streaming loop carries
exactly the strict parse of the full text, tagged 1-based with image
status `Pending` (`imageUrl = null`), independent of how the text was
split into fragments: the last iteration's strict parse succeeds on the
full buffer and is emitted unconditionally. -/
theorem c3_final_emission_is_strict_parse (frags : List (List Char)) (es : List JVal)
    (n : Nat) (hparse : jparse frags.join = some (JVal.arr es)) (hn : es.length = n) :
    (runStream frags).scenes = tagPanels es ∧ (runStream frags).scenes.length = n := by
  rcases List.eq_nil_or_concat frags with rfl | ⟨fs, c, rfl⟩
  · rw [show (List.join ([] : List (List Char))) = ([] : List Char) from rfl] at hparse
    rw [show jparse ([] : List Char) = none from rfl] at hparse
    exact Option.noConfusion hparse
  · rw [List.concat_eq_append] at hparse ⊢
    rw [runStream_concat]
    have hbuf : (runStream fs).buffer ++ c = (fs ++ [c]).join := by
      rw [runStream_buffer]
      simp
    unfold feed
    rw [hbuf, hparse]
    refine ⟨rfl, ?_⟩
    show (tagPanels es).length = n
    rw [tagPanels_length, hn]

theorem c3_witness :
    (runStream [['['], ['1', ',', '2', ']']]).scenes =
        tagPanels [JVal.num ['1'], JVal.num ['2']] ∧
      (runStream [['['], ['1', ',', '2', ']']]).scenes.length = 2 :=
  c3_final_emission_is_strict_parse [['['], ['1', ',', '2', ']']]
    [JVal.num ['1'], JVal.num ['2']] 2 rfl rfl

/-- C2 (code bug): the source's repair candidate (line 208) appends `]`
without stripping the trailing comma — the conditional
`buffer.endsWith(',') ? ']' : ']'` has identical branches — so for a
buffer ending in a comma whose comma-stripped, bracket-closed form is a
valid JSON array (here `[1,`), the code's repair parse fails and emits
nothing, while the spec's repair (strip the comma, then close) succeeds
and recovers the complete leading element.  The final conjunct shows the
loop iteration reaching such a buffer emits nothing. -/
theorem c2_repair_never_strips_comma :
    endsWithComma ['[', '1', ','] = true ∧
    repairCandidate ['[', '1', ','] = ['[', '1', ',', ']'] ∧
    jparse (repairCandidate ['[', '1', ',']) = none ∧
    jparse (specRepairCandidate ['[', '1', ',']) = some (JVal.arr [JVal.num ['1']]) ∧
    feed ⟨['[', '1'], 0, []⟩ [','] = ⟨['[', '1', ','], 0, []⟩ :=
  ⟨rfl, rfl, rfl, rfl, rfl⟩

/-! ## Lemmas about the keyed scene updates -/

theorem mapIdxFrom_length (f : Nat → Scene → Scene) :
    ∀ (i : Nat) (l : List Scene), (mapIdxFrom f i l).length = l.length := by
  intro i l
  induction l generalizing i with
  | nil => rfl
  | cons s ss ih => simp [mapIdxFrom, ih]

theorem mapIdxFrom_mem (f : Nat → Scene → Scene) :
    ∀ (l : List Scene) (i : Nat) (s : Scene), s ∈ mapIdxFrom f i l →
      ∃ j x, x ∈ l ∧ s = f j x := by
  intro l
  induction l with
  | nil => intro i s h; simp [mapIdxFrom] at h
  | cons x xs ih =>
    intro i s h
    rw [mapIdxFrom] at h
    rcases List.mem_cons.mp h with rfl | h
    · exact ⟨i, x, by simp, rfl⟩
    · obtain ⟨j, y, hy, hs⟩ := ih (i + 1) s h
      exact ⟨j, y, List.mem_cons_of_mem x hy, hs⟩

theorem mapIdxFrom_get? (f : Nat → Scene → Scene) :
    ∀ (l : List Scene) (i0 j : Nat),
      (mapIdxFrom f i0 l).get? j = (l.get? j).map (f (i0 + j)) := by
  intro l
  induction l with
  | nil => intro i0 j; rfl
  | cons s ss ih =>
    intro i0 j
    cases j with
    | zero => rfl
    | succ j =>
      rw [mapIdxFrom]
      show (mapIdxFrom f (i0 + 1) ss).get? j = _
      rw [ih (i0 + 1) j]
      have : i0 + 1 + j = i0 + (j + 1) := by omega
      rw [this]
      rfl

theorem mapIdxFrom_comp (f g : Nat → Scene → Scene) :
    ∀ (l : List Scene) (i0 : Nat),
      mapIdxFrom f i0 (mapIdxFrom g i0 l) = mapIdxFrom (fun k s => f k (g k s)) i0 l := by
  intro l
  induction l with
  | nil => intro i0; rfl
  | cons s ss ih =>
    intro i0
    rw [mapIdxFrom, mapIdxFrom, mapIdxFrom, ih (i0 + 1)]

theorem mapIdxFrom_congr (f g : Nat → Scene → Scene) (h : ∀ k s, f k s = g k s) :
    ∀ (l : List Scene) (i0 : Nat), mapIdxFrom f i0 l = mapIdxFrom g i0 l := by
  intro l
  induction l with
  | nil => intro i0; rfl
  | cons s ss ih =>
    intro i0
    rw [mapIdxFrom, mapIdxFrom, h i0 s, ih (i0 + 1)]

theorem setImg_get?_ne (scenes : List Scene) (i : Nat) (v : Option ImgVal) (j : Nat)
    (h : j ≠ i) : (setImg scenes i v).get? j = scenes.get? j := by
  rw [setImg, mapIdxFrom_get?]
  cases scenes.get? j with
  | none => rfl
  | some s => simp [Nat.zero_add, h]

theorem setImg_get?_eq (scenes : List Scene) (i : Nat) (v : Option ImgVal) :
    (setImg scenes i v).get? i = (scenes.get? i).map fun s => { s with imageUrl := v } := by
  rw [setImg, mapIdxFrom_get?]
  cases scenes.get? i with
  | none => rfl
  | some s => simp

theorem setImg_comm (scenes : List Scene) (i jk : Nat) (v w : Option ImgVal)
    (h : i ≠ jk) :
    setImg (setImg scenes i v) jk w = setImg (setImg scenes jk w) i v := by
  rw [setImg, setImg, setImg, setImg, mapIdxFrom_comp, mapIdxFrom_comp]
  apply mapIdxFrom_congr
  intro k s
  by_cases hki : k = i
  · subst hki
    rw [if_neg (fun hkj => h hkj), if_pos rfl, if_pos rfl, if_neg (fun hkj => h hkj)]
  · by_cases hkj : k = jk
    · subst hkj
      rw [if_pos rfl, if_neg hki, if_pos rfl, if_neg hki]
    · rw [if_neg hkj, if_neg hki, if_neg hki, if_neg hkj]

theorem runPanel_terminal (i : Nat) (inp : GenInput) (a1 a2 : Except GenErr (List Char)) :
    (∃ u, (runPanel i inp a1 a2).2 = ImgVal.url u) ∨
      (runPanel i inp a1 a2).2 = ImgVal.failed := by
  cases a1 with
  | ok u => exact Or.inl ⟨u, rfl⟩
  | error e =>
    cases a2 with
    | ok u => exact Or.inl ⟨u, rfl⟩
    | error e2 => exact Or.inr rfl

/-- C5: the bulk generate-all-images operation (non-placeholder path of
`handleStartImageGeneration`, lines 128-177) fails as a whole exactly
when a step outside the per-panel concurrency fails — the reference
character image request (outer catch, lines 171-173); otherwise it
settles with every panel terminal: in the settled scene list, every
panel's image is either a returned URL (Ready) or the `'FAILED'`
sentinel — none remains `null` (pending/loading) or `'RETRYING'`.  The
last conjunct isolates the per-panel catch: `runPanel` always returns a
terminal value, so no per-panel failure reaches the joint await. -/
theorem c5_bulk_settles_every_panel_terminal (scenes : List Scene)
    (charResult : Except GenErr (List Char)) (genre : List Char)
    (r1 r2 : Nat → Except GenErr (List Char)) :
    (∀ e, charResult = .error e →
      handleStartImageGeneration false (fun _ => []) scenes charResult genre r1 r2 =
        .error e) ∧
    (∀ img, charResult = .ok img →
      handleStartImageGeneration false (fun _ => []) scenes charResult genre r1 r2 =
          .ok (bulkFinal scenes img genre r1 r2) ∧
        (bulkFinal scenes img genre r1 r2).length = scenes.length ∧
        ∀ s ∈ bulkFinal scenes img genre r1 r2,
          (∃ u, s.imageUrl = some (ImgVal.url u)) ∨ s.imageUrl = some ImgVal.failed) ∧
    (∀ (i : Nat) (inp : GenInput) (a1 a2 : Except GenErr (List Char)),
      (∃ u, (runPanel i inp a1 a2).2 = ImgVal.url u) ∨
        (runPanel i inp a1 a2).2 = ImgVal.failed) := by
  refine ⟨?_, ?_, fun i inp a1 a2 => runPanel_terminal i inp a1 a2⟩
  · intro e he
    subst he
    rfl
  · intro img himg
    subst himg
    refine ⟨rfl, mapIdxFrom_length _ 0 scenes, ?_⟩
    intro s hs
    obtain ⟨j, x, hx, hsx⟩ := mapIdxFrom_mem _ scenes 0 s hs
    subst hsx
    rcases runPanel_terminal j ⟨x, img, genre⟩ (r1 j) (r2 j) with ⟨u, hu⟩ | hf
    · exact Or.inl ⟨u, by simp [hu]⟩
    · exact Or.inr (by simp [hf])

theorem c5_witness :
    handleStartImageGeneration false (fun _ => []) [⟨1, ['s'], ['p'], ['t'], none⟩]
        (Except.ok ['i']) ['g'] (fun _ => Except.error ['e']) (fun _ => Except.ok ['u']) =
        Except.ok (bulkFinal [⟨1, ['s'], ['p'], ['t'], none⟩] ['i'] ['g']
          (fun _ => Except.error ['e']) (fun _ => Except.ok ['u'])) ∧
      (bulkFinal [⟨1, ['s'], ['p'], ['t'], none⟩] ['i'] ['g']
          (fun _ => Except.error ['e']) (fun _ => Except.ok ['u'])).length = 1 ∧
      ∀ s ∈ bulkFinal [⟨1, ['s'], ['p'], ['t'], none⟩] ['i'] ['g']
          (fun _ => Except.error ['e']) (fun _ => Except.ok ['u']),
        (∃ u, s.imageUrl = some (ImgVal.url u)) ∨ s.imageUrl = some ImgVal.failed :=
  (c5_bulk_settles_every_panel_terminal [⟨1, ['s'], ['p'], ['t'], none⟩]
    (Except.ok ['i']) ['g'] (fun _ => Except.error ['e'])
    (fun _ => Except.ok ['u'])).2.1 ['i'] rfl

/-- C6: the per-panel two-attempt protocol (lines 148-164) and the
locality of its state updates.  If the first attempt succeeds the panel
ends Ready with the returned reference and no retry happens; if it fails,
a warning is logged, the panel is set to `'RETRYING'`, the fixed 500 ms
backoff elapses, and a second attempt is issued with identical inputs
(the same `GenInput` value appears in both `.attempt` events); a second
success ends Ready, a second failure logs the error and ends `'FAILED'`
with no further attempt.  Every `setScenes` update is keyed by panel
index (`setImg`): all other panels' records are untouched, and updates
to two distinct panels commute, so concurrent completions cannot corrupt
each other's fields. -/
theorem c6_two_attempt_protocol_and_keyed_updates (i : Nat) (inp : GenInput)
    (u : List Char) (e1 e2 : GenErr) (scenes : List Scene) (v w : Option ImgVal)
    (j jk : Nat) :
    (runPanel i inp (.ok u) (.ok u) =
      ([.attempt inp, .setStatus i (some (.url u))], .url u)) ∧
    (∀ a2, runPanel i inp (.ok u) a2 =
      ([.attempt inp, .setStatus i (some (.url u))], .url u)) ∧
    (runPanel i inp (.error e1) (.ok u) =
      ([.attempt inp, .warn, .setStatus i (some .retrying), .wait 500, .attempt inp,
        .setStatus i (some (.url u))], .url u)) ∧
    (runPanel i inp (.error e1) (.error e2) =
      ([.attempt inp, .warn, .setStatus i (some .retrying), .wait 500, .attempt inp,
        .logError e2, .setStatus i (some .failed)], .failed)) ∧
    (j ≠ i → (setImg scenes i v).get? j = scenes.get? j) ∧
    ((setImg scenes i v).get? i = (scenes.get? i).map fun s => { s with imageUrl := v }) ∧
    (i ≠ jk → setImg (setImg scenes i v) jk w = setImg (setImg scenes jk w) i v) := by
  refine ⟨rfl, fun a2 => rfl, rfl, rfl, ?_, setImg_get?_eq scenes i v, ?_⟩
  · exact fun h => setImg_get?_ne scenes i v j h
  · exact fun h => setImg_comm scenes i jk v w h

theorem c6_witness :
    (runPanel 0 ⟨⟨1, ['s'], ['p'], ['t'], none⟩, ['i'], ['g']⟩ (.error ['e'])
        (.ok ['u']) =
      ([.attempt ⟨⟨1, ['s'], ['p'], ['t'], none⟩, ['i'], ['g']⟩, .warn,
        .setStatus 0 (some .retrying), .wait 500,
        .attempt ⟨⟨1, ['s'], ['p'], ['t'], none⟩, ['i'], ['g']⟩,
        .setStatus 0 (some (.url ['u']))], .url ['u'])) ∧
    (setImg [⟨1, ['s'], ['p'], ['t'], none⟩, ⟨2, ['s'], ['p'], ['t'], none⟩] 0
        (some (ImgVal.url ['u']))).get? 1 =
      some ⟨2, ['s'], ['p'], ['t'], none⟩ :=
  ⟨(c6_two_attempt_protocol_and_keyed_updates 0
      ⟨⟨1, ['s'], ['p'], ['t'], none⟩, ['i'], ['g']⟩ ['u'] ['e'] ['e']
      [⟨1, ['s'], ['p'], ['t'], none⟩, ⟨2, ['s'], ['p'], ['t'], none⟩]
      (some (ImgVal.url ['u'])) none 1 1).2.2.1,
   ((c6_two_attempt_protocol_and_keyed_updates 0
      ⟨⟨1, ['s'], ['p'], ['t'], none⟩, ['i'], ['g']⟩ ['u'] ['e'] ['e']
      [⟨1, ['s'], ['p'], ['t'], none⟩, ⟨2, ['s'], ['p'], ['t'], none⟩]
      (some (ImgVal.url ['u'])) none 1 1).2.2.2.2.1 (by decide)).trans (by rfl)⟩

/-- C7 (counterexample to the claim as stated): in a state with no
character reference image — reachable in development mode, where the
regenerate button is shown on Ready panels but `characterImageB64` is
`null` — invoking `handleRegenerateImage` returns at the guard
(line 290): no event is emitted, the panel is never reset to Loading, and
the Ready panel is unchanged.  So "for every session state, invoking the
regenerate action first resets that panel's image status to Loading" is
false on the code. -/
theorem c7_counterexample :
    (handleRegenerateImage none false
        [⟨1, ['s'], ['p'], ['t'], some (ImgVal.url ['x'])⟩] 0 ['g']
        (.ok ['u']) (.ok ['u'])).1.head? = none ∧
    (handleRegenerateImage none false
        [⟨1, ['s'], ['p'], ['t'], some (ImgVal.url ['x'])⟩] 0 ['g']
        (.ok ['u']) (.ok ['u'])).2 =
      [⟨1, ['s'], ['p'], ['t'], some (ImgVal.url ['x'])⟩] :=
  ⟨rfl, rfl⟩

/-- C7 (amended): whenever the guard on line 290 passes — a character
reference image exists and no regeneration is already in flight —
`handleRegenerateImage` first resets the target panel's image to `null`
(Loading, line 294), visible to the display layer before any attempt
resolves: the Loading update is the head of the event trace, preceding
every `.attempt` and every terminal `.setStatus`; this holds for any
current status of the panel, including Ready, and the two-attempt
protocol then runs on the panel's pre-reset content. -/
theorem c7_regenerate_passes_through_loading (img : List Char) (scenes : List Scene)
    (i : Nat) (genre : List Char) (r1 r2 : Except GenErr (List Char)) :
    (handleRegenerateImage (some img) false scenes i genre r1 r2).1 =
      PanelEvent.setStatus i none ::
        (runPanel i ⟨scenes.getD i defaultScene, img, genre⟩ r1 r2).1 ∧
    (handleRegenerateImage (some img) false scenes i genre r1 r2).1.head? =
      some (PanelEvent.setStatus i none) ∧
    (handleRegenerateImage (some img) false scenes i genre r1 r2).2 =
      setImg scenes i (some (runPanel i ⟨scenes.getD i defaultScene, img, genre⟩ r1 r2).2) :=
  ⟨rfl, rfl, rfl⟩

/-- C8: single-panel script revision (`handleRegenerateSingleScript`,
lines 264-287, surfaced through `ScriptEditModal.handleRegenerate`,
lines 468-473).  On failure nothing in the session state changes and the
error goes only to the editor context; on success only the panel whose
`scene` tag matches the target is replaced, and only its `script`,
`image_prompt` and `panel_text` fields change — `imageUrl` and `scene`
are preserved, and every other panel is untouched. -/
theorem c8_revision_replaces_exactly_the_target (scenes : List Scene) (target : Scene)
    (d : ScriptTriple) (e : GenErr) :
    (handleRegenerateSingleScript scenes target (.error e) = (scenes, some e)) ∧
    ((handleRegenerateSingleScript scenes target (.ok d)).2 = none) ∧
    (∀ k, (handleRegenerateSingleScript scenes target (.ok d)).1.get? k =
      (scenes.get? k).map fun s =>
        if s.scene = target.scene then applyTriple s d else s) ∧
    (∀ s : Scene, (applyTriple s d).imageUrl = s.imageUrl ∧
      (applyTriple s d).scene = s.scene ∧ (applyTriple s d).script = d.script ∧
      (applyTriple s d).image_prompt = d.image_prompt ∧
      (applyTriple s d).panel_text = d.panel_text) := by
  refine ⟨rfl, rfl, ?_, fun s => ⟨rfl, rfl, rfl, rfl, rfl⟩⟩
  intro k
  show (scenes.map fun s => if s.scene = target.scene then applyTriple s d else s).get? k = _
  rw [List.get?_map]

/-- C9: `startOver` (lines 315-320) resets the session (clearing the
panels, the story idea and the generated/reviewing flags).  It does not
itself call the narration device, but clearing `scenes` changes the
dependency array of the always-mounted `SlideshowModal` narration effect
(line 525), so React re-runs that effect upon the reset and its first
command — in both its open and closed branches (lines 503, 523) — is
`speechSynthesis.cancel()`.  Hence from every state in which start over
is invoked (such states display a generated comic, so `scenes` is
nonempty), a cancel is issued to the narration device upon resetting the
session. -/
theorem c9_start_over_cancels_narration (st : AppState) (hne : st.scenes ≠ []) :
    (startOverStep st).2.head? = some NarrCmd.cancel ∧
    (startOverStep st).1.scenes = [] ∧
    (startOverStep st).1.storyIdea = [] ∧
    (startOverStep st).1.isGenerated = false ∧
    (startOverStep st).1.isReviewingScript = false := by
  unfold startOverStep
  have hdep : ¬ (narrationDeps (startOver st) = narrationDeps st) := by
    intro hcontr
    have hsc := congrArg NarrDeps.scenes hcontr
    simp [narrationDeps, startOver] at hsc
    exact hne hsc
  rw [if_neg hdep]
  refine ⟨?_, rfl, rfl, rfl, rfl⟩
  unfold narrationEffect
  by_cases ho : (startOver st).isSlideshowOpen = true
  · rw [if_pos ho]; rfl
  · rw [if_neg ho]; rfl

theorem c9_witness :
    (startOverStep ⟨true, [⟨1, ['s'], ['p'], ['t'], none⟩], ['i'], false, false, 0,
        false, none, []⟩).2.head? = some NarrCmd.cancel ∧
    (startOverStep ⟨true, [⟨1, ['s'], ['p'], ['t'], none⟩], ['i'], false, false, 0,
        false, none, []⟩).1.scenes = [] ∧
    (startOverStep ⟨true, [⟨1, ['s'], ['p'], ['t'], none⟩], ['i'], false, false, 0,
        false, none, []⟩).1.storyIdea = [] ∧
    (startOverStep ⟨true, [⟨1, ['s'], ['p'], ['t'], none⟩], ['i'], false, false, 0,
        false, none, []⟩).1.isGenerated = false ∧
    (startOverStep ⟨true, [⟨1, ['s'], ['p'], ['t'], none⟩], ['i'], false, false, 0,
        false, none, []⟩).1.isReviewingScript = false :=
  c9_start_over_cancels_narration _ (by simp)

theorem navStep_inv (len : Nat) (st : SlideSt) (op : NavOp)
    (h : NavInv len st) : NavInv len (navStep len st op) := by
  obtain ⟨⟨i, c⟩, o, ko, kc⟩ := st
  unfold NavInv at h ⊢
  obtain ⟨hb, hc, ho, hk⟩ := h
  dsimp only at hb hc ho hk
  subst hc
  subst ho
  subst hk
  cases ko with
  | false =>
    cases op <;>
      simp [navStep, keyLeft, keyRight, handleRestart, openModal, reconcile,
        kdDepsMatch, kdEffectRun, hb]
  | true =>
    cases op with
    | prevKey =>
      simp [navStep, keyLeft, goToPrevious, reconcile, kdDepsMatch, kdEffectRun]
      split <;> omega
    | nextKey =>
      by_cases hlt : i < len - 1
      · simp [navStep, keyRight, goToNext, reconcile, kdDepsMatch, kdEffectRun, hlt]
        omega
      · simp [navStep, keyRight, goToNext, reconcile, kdDepsMatch, kdEffectRun, hlt]
    | restartClick =>
      simp [navStep, handleRestart, reconcile, kdDepsMatch, kdEffectRun]
    | openShow =>
      simp [navStep, openModal, reconcile, kdDepsMatch, kdEffectRun, hb]

theorem navRun_inv (len : Nat) (ops : List NavOp) :
    ∀ st : SlideSt, NavInv len st → NavInv len (navRun len ops st) := by
  induction ops with
  | nil => intro st h; exact h
  | cons op ops ih =>
    intro st h
    exact ih (navStep len st op) (navStep_inv len st op h)

/-- C10 (counterexample to the claim as stated): the keydown effect lists
`isCompleted` in its dependency array (line 547) and, whenever it re-runs
with the modal open, its body resets the index to 0 and clears the flag
(lines 538-540).  So in a two-panel show at the last index, ArrowRight
does not leave the index unchanged with the completed flag set: the flag
is set only inside the handler, the pending effect re-run immediately
resets the state to index 0 with the flag cleared, and a further
ArrowRight is not ignored — it advances to index 1 again with no restart
in between. -/
theorem c10_counterexample :
    keyRight 2 ⟨⟨1, false⟩, true, true, false⟩ = ⟨⟨1, true⟩, true, true, false⟩ ∧
    navStep 2 ⟨⟨1, false⟩, true, true, false⟩ NavOp.nextKey
      = ⟨⟨0, false⟩, true, true, false⟩ ∧
    navStep 2 ⟨⟨0, false⟩, true, true, false⟩ NavOp.nextKey
      = ⟨⟨1, false⟩, true, true, false⟩ :=
  ⟨rfl, rfl, rfl⟩

/-- C10 (corrected): in the slideshow playback controller
(`SlideshowModal`, lines 481-499 and 527-547), for a non-empty panel list
the current index stays within `[0, length - 1]` under every sequence of
previous/next/restart/open operations; previous at index 0 stays at 0;
the restart button resets to index 0 with the flag cleared; and opening
the closed modal resets to index 0.  But completion does not persist:
ArrowRight on the last index sets the completed flag only inside the
handler — `isCompleted` is in the keydown effect's dependency array
(line 547), so the effect re-runs at once and its body (lines 538-540)
resets the state to index 0 with the flag cleared.  The show
auto-restarts, navigation keys stay active, and in every settled state
the completed flag is false. -/
theorem c10_nav_bounds_auto_restart (len : Nat) (ops : List NavOp) (st : SlideSt)
    (hlen : 1 ≤ len) (hst : NavInv len st) :
    NavInv len (navRun len ops st) ∧
    (navRun len ops st).nav.currentIndex ≤ len - 1 ∧
    (navRun len ops st).nav.currentIndex < len ∧
    (navRun len ops st).nav.isCompleted = false ∧
    (st.nav.currentIndex = 0 → (navStep len st NavOp.prevKey).nav.currentIndex = 0) ∧
    (st.isOpen = true → st.nav.currentIndex = len - 1 →
      (keyRight len st).nav.isCompleted = true ∧
      navStep len st NavOp.nextKey = ⟨⟨0, false⟩, true, true, false⟩) ∧
    ((navStep len st NavOp.restartClick).nav = ⟨0, false⟩) ∧
    (st.isOpen = false →
      navStep len st NavOp.openShow = ⟨⟨0, false⟩, true, true, false⟩) := by
  obtain ⟨⟨i, c⟩, o, ko, kc⟩ := st
  have hst2 := hst
  unfold NavInv at hst2
  obtain ⟨hb0, hc0, ho0, hk0⟩ := hst2
  dsimp only at hb0 hc0 ho0 hk0
  subst hc0
  subst ho0
  subst hk0
  have hrun := navRun_inv len ops ⟨⟨i, false⟩, ko, ko, false⟩ hst
  have hrun2 := hrun
  unfold NavInv at hrun2
  obtain ⟨hb, hcf, hko, hkc⟩ := hrun2
  refine ⟨hrun, hb, by omega, hcf, ?_, ?_, ?_, ?_⟩
  · intro h0
    dsimp only at h0
    subst h0
    cases ko <;>
      simp [navStep, keyLeft, goToPrevious, reconcile, kdDepsMatch, kdEffectRun]
  · intro hopen hidx
    dsimp only at hopen hidx
    subst hopen
    subst hidx
    simp [navStep, keyRight, goToNext, reconcile, kdDepsMatch, kdEffectRun,
      Nat.lt_irrefl]
  · simp [navStep, handleRestart, reconcile, kdDepsMatch, kdEffectRun]
  · intro hcl
    dsimp only at hcl
    subst hcl
    simp [navStep, openModal, reconcile, kdDepsMatch, kdEffectRun]

theorem c10_auto_witness :
    1 ≤ 3 ∧ NavInv 3 ⟨⟨2, false⟩, true, true, false⟩ ∧
    (NavInv 3 (navRun 3 [NavOp.nextKey, NavOp.nextKey, NavOp.prevKey,
        NavOp.restartClick, NavOp.nextKey] ⟨⟨2, false⟩, true, true, false⟩) ∧
     (navRun 3 [NavOp.nextKey, NavOp.nextKey, NavOp.prevKey,
        NavOp.restartClick, NavOp.nextKey]
        ⟨⟨2, false⟩, true, true, false⟩).nav.currentIndex ≤ 3 - 1 ∧
     (navRun 3 [NavOp.nextKey, NavOp.nextKey, NavOp.prevKey,
        NavOp.restartClick, NavOp.nextKey]
        ⟨⟨2, false⟩, true, true, false⟩).nav.currentIndex < 3 ∧
     (navRun 3 [NavOp.nextKey, NavOp.nextKey, NavOp.prevKey,
        NavOp.restartClick, NavOp.nextKey]
        ⟨⟨2, false⟩, true, true, false⟩).nav.isCompleted = false ∧
     ((⟨⟨2, false⟩, true, true, false⟩ : SlideSt).nav.currentIndex = 0 →
       (navStep 3 ⟨⟨2, false⟩, true, true, false⟩ NavOp.prevKey).nav.currentIndex = 0) ∧
     ((⟨⟨2, false⟩, true, true, false⟩ : SlideSt).isOpen = true →
       (⟨⟨2, false⟩, true, true, false⟩ : SlideSt).nav.currentIndex = 3 - 1 →
       (keyRight 3 ⟨⟨2, false⟩, true, true, false⟩).nav.isCompleted = true ∧
       navStep 3 ⟨⟨2, false⟩, true, true, false⟩ NavOp.nextKey
         = ⟨⟨0, false⟩, true, true, false⟩) ∧
     ((navStep 3 ⟨⟨2, false⟩, true, true, false⟩ NavOp.restartClick).nav = ⟨0, false⟩) ∧
     ((⟨⟨2, false⟩, true, true, false⟩ : SlideSt).isOpen = false →
       navStep 3 ⟨⟨2, false⟩, true, true, false⟩ NavOp.openShow
         = ⟨⟨0, false⟩, true, true, false⟩)) :=
  ⟨by decide, by unfold NavInv; decide,
   c10_nav_bounds_auto_restart 3 [NavOp.nextKey, NavOp.nextKey, NavOp.prevKey,
     NavOp.restartClick, NavOp.nextKey] ⟨⟨2, false⟩, true, true, false⟩ (by decide)
     (by unfold NavInv; decide)⟩
